import Mathlib

/-!
Shallow embedding of the middleware-chaining runtime (`withMiddleware` /
`middlewareFactory` from the next-api-glue source file) and proofs of the
specification claims about it.

Middleware are opaque callbacks in the source; here each middleware body is
modelled as a list of primitive actions (`MwOp`): call `context.runtime.next()`,
call `context.runtime.done()`, call `res.end()`, set the response status,
throw a value, or mutate the shared `context.options` object (which the source
never freezes).  Thrown values are modelled as naturals.  The chain driver
(`startPullingChain` with its inner `pullChain` loop), the `res.end` wrapper
installed when `callDoneOnEnd` is true, and the dual-chain orchestrator are
translated statement by statement from the source.  Execution is instrumented
with a trace of events (middleware invocations with a snapshot of
`context.runtime.error`, effective `done()` aborts, diagnostic warnings, the
handler invocation, the start of the error chain, and the not-implemented
fallback).
-/

/-- Which chain a driver run is executing: the primary `use` chain or the
`useOnError` chain. -/
inductive ChainKind
  | primary
  | errorChain
deriving DecidableEq

/-- Diagnostic warnings emitted by the runtime (`debug.warn` in the source).
They never alter control flow. -/
inductive Warn
  | nextAfterAbort
  | nextAfterComplete
  | doneAfterAbort
  | doneAfterComplete
  | nonFunctionEntry
  | chainAbortedByError
deriving DecidableEq

/-- Trace events recorded while a request is processed. `mwStart k i e` means
the middleware at array index `i` of chain `k` was invoked while
`context.runtime.error` was `e`.  `doneAborted k` means a `runtime.done()` call
took effect (flipped `executionWasAborted`) during the run of chain `k`. -/
inductive Ev
  | mwStart (kind : ChainKind) (idx : Nat) (ctxErr : Option Nat)
  | handlerStart
  | errorChainStarted
  | notImplementedSent
  | doneAborted (kind : ChainKind)
  | warn (w : Warn)
deriving DecidableEq

/-- The observable state of the HTTP response object. -/
structure ResSt where
  statusCode : Nat
  headersSent : Bool
  writableEnded : Bool
deriving DecidableEq

/-- A fresh response: default status 200, nothing sent. -/
def ResSt.initial : ResSt := ⟨200, false, false⟩

/-- The raw (unwrapped) `res.end`: finalizes the response. -/
def rawEnd (r : ResSt) : ResSt := ⟨r.statusCode, true, true⟩

/-- `sendNotImplemented res`: sends the default HTTP 501 response. -/
def sendNotImplemented (_r : ResSt) : ResSt := ⟨501, true, true⟩

/-- Whether the response has been finalized (headers sent or body ended). -/
def ResSt.finalized (r : ResSt) : Bool := r.writableEnded || r.headersSent

/-- Primitive actions a middleware body can perform, in order.  These are the
operations the middleware contract exposes: the two runtime control handles,
the response object, throwing, and mutation of the shared (unfrozen)
`context.options` object. -/
inductive MwOp
  | next
  | done
  | endRes
  | setStatus (code : Nat)
  | throwErr (e : Nat)
  | setCallDoneOnEnd (b : Bool)
deriving DecidableEq

/-- An entry of a `use` / `useOnError` array: a middleware function or a
non-function item (skipped with a warning by the driver). -/
inductive Entry
  | mw (ops : List MwOp)
  | nonFunction
deriving DecidableEq

/-- Primitive actions of the terminal handler (it receives only `(req, res)`,
not the context, so it has no access to `next`/`done`). -/
inductive HOp
  | endRes
  | setStatus (code : Nat)
  | throwErr (e : Nat)
deriving DecidableEq

/-- The mutable state shared across a request: the response, the current
driver run's flags (`executionWasAborted` / `executionCompleted` /
`ranAtLeastOneMiddleware`), the iterator position `idx`, which chain is
running, whether the `res.end` wrapper was installed for this run (the
snapshot of `options.callDoneOnEnd` taken at run start), the current value of
the mutable `context.options.callDoneOnEnd`, `context.runtime.error`, and the
event trace. -/
structure St where
  res : ResSt
  executionWasAborted : Bool
  executionCompleted : Bool
  ranAtLeastOneMiddleware : Bool
  idx : Nat
  chainKind : ChainKind
  wrapInstalled : Bool
  optCallDoneOnEnd : Bool
  ctxError : Option Nat
  trace : List Ev
deriving DecidableEq

/-- Append one event to the trace. -/
def addEv (s : St) (ev : Ev) : St := { s with trace := s.trace ++ [ev] }

/-- `context.runtime.done()` (source lines 196-212): if the run has not
completed, and was not already aborted, abort it; otherwise warn and do
nothing. -/
def runtimeDone (s : St) : St :=
  if !s.executionCompleted then
    if !s.executionWasAborted then
      { s with executionWasAborted := true,
               trace := s.trace ++ [Ev.doneAborted s.chainKind] }
    else addEv s (Ev.warn Warn.doneAfterAbort)
  else addEv s (Ev.warn Warn.doneAfterComplete)

/-- `res.end()` as seen by middleware during a chain run.  When the wrapper is
installed (source lines 148-171), the first effective call (response not yet
sent) additionally triggers `runtime.done()` unless the run already finished;
otherwise it is the raw `end`. -/
def resEnd (s : St) : St :=
  if s.wrapInstalled then
    if !(s.res.writableEnded || s.res.headersSent) then
      if !s.executionWasAborted && !s.executionCompleted then
        runtimeDone { s with res := rawEnd s.res }
      else { s with res := rawEnd s.res }
    else { s with res := rawEnd s.res }
  else { s with res := rawEnd s.res }

/-- `res.status(code)`. -/
def setStatusSt (code : Nat) (s : St) : St :=
  { s with res := { s.res with statusCode := code } }

/-- A middleware mutating the shared options object
(`context.options.callDoneOnEnd = b`); the source never freezes `options`. -/
def setOptSt (b : Bool) (s : St) : St := { s with optCallDoneOnEnd := b }

/-- Result of one interpreter call: the state, the remaining iterator
(the chain is a shared single-pass iterator), the frame's `chainWasPulled`
flag, and the value thrown out of the call, if any. -/
structure Out where
  st : St
  chain : List Entry
  cwp : Bool
  thrown : Option Nat
deriving DecidableEq

/-- A pending interpreter call: `pull` is the source's `pullChain`;
`mws ops cwp chain s` is the execution of the remaining body `ops` of the
current middleware, with frame-local `chainWasPulled = cwp`. -/
inductive Call
  | pull (chain : List Entry) (s : St)
  | mws (ops : List MwOp) (cwp : Bool) (chain : List Entry) (s : St)
deriving DecidableEq

/-- The chain (remaining iterator) of a call. -/
def Call.chainOf : Call → List Entry
  | Call.pull chain _ => chain
  | Call.mws _ _ chain _ => chain

/-- The state of a call. -/
def Call.stOf : Call → St
  | Call.pull _ s => s
  | Call.mws _ _ _ s => s

/-- Fuel-indexed interpreter for the driver loop (source lines 173-234) and
middleware bodies.  `pull` pulls the next iterator entry: when exhausted it
marks `executionCompleted`; a non-function entry is skipped with a warning; a
middleware entry is invoked (recording `mwStart` with the current
`context.runtime.error`), and afterwards the driver stops if the run was
aborted, stops if the middleware manually advanced (`chainWasPulled`), and
auto-advances otherwise.  A thrown value propagates out immediately.
`mws` runs the middleware body: `next` warns (no-op) after completion or
abort and otherwise pulls the chain recursively, marking the frame's
`chainWasPulled`. -/
def run : Nat → Call → Option Out
  | 0, _ => none
  | n + 1, Call.pull chain s =>
    match chain with
    | [] => some ⟨{ s with executionCompleted := true }, [], false, none⟩
    | Entry.nonFunction :: rest =>
      let s1 := addEv { s with idx := s.idx + 1 } (Ev.warn Warn.nonFunctionEntry)
      if s1.executionWasAborted then some ⟨s1, rest, false, none⟩
      else run n (Call.pull rest s1)
    | Entry.mw ops :: rest =>
      let s1 := addEv { s with idx := s.idx + 1 } (Ev.mwStart s.chainKind s.idx s.ctxError)
      match run n (Call.mws ops false rest s1) with
      | none => none
      | some o =>
        match o.thrown with
        | some e => some ⟨o.st, o.chain, false, some e⟩
        | none =>
          let s3 := { o.st with ranAtLeastOneMiddleware := true }
          if s3.executionWasAborted then some ⟨s3, o.chain, false, none⟩
          else if o.cwp then some ⟨s3, o.chain, false, none⟩
          else run n (Call.pull o.chain s3)
  | n + 1, Call.mws ops cwp chain s =>
    match ops with
    | [] => some ⟨s, chain, cwp, none⟩
    | MwOp.done :: rest => run n (Call.mws rest cwp chain (runtimeDone s))
    | MwOp.endRes :: rest => run n (Call.mws rest cwp chain (resEnd s))
    | MwOp.setStatus code :: rest => run n (Call.mws rest cwp chain (setStatusSt code s))
    | MwOp.setCallDoneOnEnd b :: rest => run n (Call.mws rest cwp chain (setOptSt b s))
    | MwOp.throwErr e :: _ => some ⟨s, chain, cwp, some e⟩
    | MwOp.next :: rest =>
      if s.executionCompleted then
        run n (Call.mws rest cwp chain (addEv s (Ev.warn Warn.nextAfterComplete)))
      else if s.executionWasAborted then
        run n (Call.mws rest cwp chain (addEv s (Ev.warn Warn.nextAfterAbort)))
      else
        match run n (Call.pull chain s) with
        | none => none
        | some o =>
          match o.thrown with
          | some e => some ⟨o.st, o.chain, true, some e⟩
          | none => run n (Call.mws rest true o.chain o.st)

/-- Weight of an entry, used to compute sufficient interpreter fuel. -/
def entryWeight : Entry → Nat
  | Entry.mw ops => ops.length + 2
  | Entry.nonFunction => 2

/-- Weight of a chain. -/
def chainWeight (c : List Entry) : Nat := (c.map entryWeight).sum

/-- Weight of a call: an upper bound on the fuel it consumes. -/
def callWeight : Call → Nat
  | Call.pull chain _ => chainWeight chain + 1
  | Call.mws ops _ chain _ => chainWeight chain + ops.length + 1

/-- The state with which a driver run begins (source lines 139-148): fresh
run flags, iterator position reset, and the `res.end` wrapper installed
according to the current value of `options.callDoneOnEnd`. -/
def runInit (kind : ChainKind) (s : St) : St :=
  { s with executionWasAborted := false, executionCompleted := false,
           ranAtLeastOneMiddleware := false, idx := 0, chainKind := kind,
           wrapInstalled := s.optCallDoneOnEnd }

/-- `startPullingChain` (source lines 139-248): reset the run flags, snapshot
`options.callDoneOnEnd` to decide whether the `res.end` wrapper is installed,
run the pull loop, and, on a thrown value, set `executionWasAborted`, warn,
and rethrow. -/
def startPullingChain (kind : ChainKind) (chain : List Entry) (s : St) :
    Option (St × Option Nat) :=
  match run (chainWeight chain + 2) (Call.pull chain (runInit kind s)) with
  | none => none
  | some o =>
    match o.thrown with
    | some e =>
      some (addEv { o.st with executionWasAborted := true }
              (Ev.warn Warn.chainAbortedByError), some e)
    | none => some (o.st, none)

/-- The terminal handler body (source lines 263-270): it sees the raw
response operations only (during the handler phase the installed wrapper is
inert because the primary run already finished). -/
def runHandlerOps : List HOp → ResSt → ResSt × Option Nat
  | [], r => (r, none)
  | HOp.endRes :: rest, r => runHandlerOps rest (rawEnd r)
  | HOp.setStatus code :: rest, r => runHandlerOps rest { r with statusCode := code }
  | HOp.throwErr e :: _, r => (r, some e)

/-- The configuration handed to `withMiddleware`: the optional terminal
handler, the `use` array, the optional `useOnError` array, and the optionally
supplied `callDoneOnEnd` option (merged as `{ callDoneOnEnd: true, ...options }`). -/
structure Config where
  handler : Option (List HOp)
  use : List Entry
  useOnError : Option (List Entry)
  suppliedCallDoneOnEnd : Option Bool
deriving DecidableEq

/-- The observable outcome of one request through the produced handler:
the final response, the event trace, the final value of the mutable
`context.options.callDoneOnEnd`, the value thrown by the primary chain (if
any), the failure captured by the orchestrator's catch (from the primary
chain or the terminal handler), the value thrown by the error chain (if it
ran and threw), whether the error chain run ended with
`executionCompleted` (`none` when it never ran), and the value that
propagates out of the produced handler to the caller (`none` = normal
return). -/
structure ReqResult where
  res : ResSt
  trace : List Ev
  optCallDoneOnEnd : Bool
  primaryChainThrown : Option Nat
  caughtError : Option Nat
  errorChainThrown : Option Nat
  errorRunCompleted : Option Bool
  propagated : Option Nat
deriving DecidableEq

instance : Inhabited ReqResult :=
  ⟨⟨ResSt.initial, [], true, none, none, none, none, none⟩⟩

/-- End of the try block (source lines 275-278): if the response was not
finalized, send the default not-implemented response. -/
def finishSuccess (primaryThrown : Option Nat) (s : St) : ReqResult :=
  if !s.res.writableEnded && !s.res.headersSent then
    { res := sendNotImplemented s.res,
      trace := s.trace ++ [Ev.notImplementedSent],
      optCallDoneOnEnd := s.optCallDoneOnEnd,
      primaryChainThrown := primaryThrown, caughtError := none,
      errorChainThrown := none, errorRunCompleted := none, propagated := none }
  else
    { res := s.res, trace := s.trace, optCallDoneOnEnd := s.optCallDoneOnEnd,
      primaryChainThrown := primaryThrown, caughtError := none,
      errorChainThrown := none, errorRunCompleted := none, propagated := none }

/-- The orchestrator's catch block (source lines 281-311): record the failure
into `context.runtime.error`; if `useOnError` was supplied run the error
chain (a failure there supersedes and propagates; otherwise, if the response
is still not finalized, the original failure propagates); if `useOnError` was
not supplied the original failure propagates immediately. -/
def handleErrorPath (cfg : Config) (primaryThrown : Option Nat) (s : St)
    (e : Nat) : Option ReqResult :=
  match cfg.useOnError with
  | some chainE =>
    match startPullingChain ChainKind.errorChain chainE
        (addEv { s with ctxError := some e } Ev.errorChainStarted) with
    | none => none
    | some (s2, some subE) =>
      some { res := s2.res, trace := s2.trace,
             optCallDoneOnEnd := s2.optCallDoneOnEnd,
             primaryChainThrown := primaryThrown, caughtError := some e,
             errorChainThrown := some subE,
             errorRunCompleted := some s2.executionCompleted,
             propagated := some subE }
    | some (s2, none) =>
      if !s2.res.writableEnded && !s2.res.headersSent then
        some { res := s2.res, trace := s2.trace,
               optCallDoneOnEnd := s2.optCallDoneOnEnd,
               primaryChainThrown := primaryThrown, caughtError := some e,
               errorChainThrown := none,
               errorRunCompleted := some s2.executionCompleted,
               propagated := some e }
      else
        some { res := s2.res, trace := s2.trace,
               optCallDoneOnEnd := s2.optCallDoneOnEnd,
               primaryChainThrown := primaryThrown, caughtError := some e,
               errorChainThrown := none,
               errorRunCompleted := some s2.executionCompleted,
               propagated := none }
  | none =>
    some { res := s.res, trace := s.trace,
           optCallDoneOnEnd := s.optCallDoneOnEnd,
           primaryChainThrown := primaryThrown, caughtError := some e,
           errorChainThrown := none, errorRunCompleted := none,
           propagated := some e }

/-- The fresh per-request state: fresh response, fresh context with
`runtime.error` undefined and options merged as
`{ callDoneOnEnd: true, ...options }` (source lines 119-133). -/
def initSt (cfg : Config) : St :=
  { res := ResSt.initial, executionWasAborted := false,
    executionCompleted := false, ranAtLeastOneMiddleware := false,
    idx := 0, chainKind := ChainKind.primary, wrapInstalled := false,
    optCallDoneOnEnd := cfg.suppliedCallDoneOnEnd.getD true,
    ctxError := none, trace := [] }

/-- One request through the handler produced by `withMiddleware` (source
lines 119-313): fresh context, primary chain, conditional terminal handler,
not-implemented fallback, and the error path on any thrown failure. -/
def runRequestO (cfg : Config) : Option ReqResult :=
  match startPullingChain ChainKind.primary cfg.use (initSt cfg) with
  | none => none
  | some (s1, some e) => handleErrorPath cfg (some e) s1 e
  | some (s1, none) =>
    match cfg.handler with
    | some hops =>
      if s1.executionWasAborted then finishSuccess none s1
      else
        match runHandlerOps hops (addEv s1 Ev.handlerStart).res with
        | (rs, some e) =>
          handleErrorPath cfg none { addEv s1 Ev.handlerStart with res := rs } e
        | (rs, none) =>
          finishSuccess none { addEv s1 Ev.handlerStart with res := rs }
    | none => finishSuccess none s1

/-- Total version of `runRequestO` (the interpreter fuel chosen by
`startPullingChain` is always sufficient, proved below). -/
def runRequest (cfg : Config) : ReqResult := (runRequestO cfg).getD default

/-! Smoke tests of the embedding on the specification's own examples. -/

/-- Example from the spec: empty chain, no handler, nothing finalizes the
response: the default not-implemented response results. -/
example :
    (runRequest ⟨none, [], none, none⟩).res = ⟨501, true, true⟩ ∧
    Ev.notImplementedSent ∈ (runRequest ⟨none, [], none, none⟩).trace := by
  decide

/-- Example from the spec: a middleware calling `done()` with a handler
present: the handler is never invoked and the response ends as the default
not-implemented response. -/
example :
    (runRequest ⟨some [HOp.endRes], [Entry.mw [MwOp.done]], none, none⟩).res =
      ⟨501, true, true⟩ ∧
    Ev.handlerStart ∉
      (runRequest ⟨some [HOp.endRes], [Entry.mw [MwOp.done]], none, none⟩).trace := by
  decide

/-- Example from the spec: a throwing middleware with no error chain: the
caller receives the thrown value. -/
example :
    (runRequest ⟨none, [Entry.mw [MwOp.throwErr 7]], none, none⟩).propagated =
      some 7 := by
  decide

/-- Example from the spec: a throwing middleware with an error chain that
finalizes the response with status 500: no failure surfaces to the caller. -/
example :
    (runRequest ⟨none, [Entry.mw [MwOp.throwErr 7]],
        some [Entry.mw [MwOp.setStatus 500, MwOp.endRes]], none⟩).propagated =
      none ∧
    (runRequest ⟨none, [Entry.mw [MwOp.throwErr 7]],
        some [Entry.mw [MwOp.setStatus 500, MwOp.endRes]], none⟩).res.statusCode =
      500 := by
  decide

/-- With `callDoneOnEnd` true (the default), a middleware that calls
`res.end` aborts the chain: the second middleware never runs. -/
example :
    (runRequest ⟨none, [Entry.mw [MwOp.endRes], Entry.mw [MwOp.setStatus 201]],
        none, none⟩).res.statusCode = 200 ∧
    Ev.mwStart ChainKind.primary 1 none ∉
      (runRequest ⟨none, [Entry.mw [MwOp.endRes], Entry.mw [MwOp.setStatus 201]],
          none, none⟩).trace := by
  decide

/-- With `callDoneOnEnd` false, the chain always runs to completion: the
second middleware runs even though the response was already ended. -/
example :
    Ev.mwStart ChainKind.primary 1 none ∈
      (runRequest ⟨none, [Entry.mw [MwOp.endRes], Entry.mw [MwOp.setStatus 201]],
          none, some false⟩).trace := by
  decide

/-- Manual advancement: the first middleware pulls the second via `next()`,
then continues; both run, in order. -/
example :
    (runRequest ⟨none, [Entry.mw [MwOp.next, MwOp.setStatus 418],
        Entry.mw [MwOp.setStatus 202]], none, some false⟩).trace =
      [Ev.mwStart ChainKind.primary 0 none, Ev.mwStart ChainKind.primary 1 none,
       Ev.notImplementedSent] := by
  decide

/-! Basic invariants of the interpreter. -/

/-- Events a driver run over chain `k` with `context.runtime.error = err` may
append to the trace: middleware invocations of that chain carrying that error
snapshot, effective aborts of that chain, and warnings. -/
def EvOk (k : ChainKind) (err : Option Nat) (ev : Ev) : Prop :=
  (∃ i, ev = Ev.mwStart k i err) ∨ ev = Ev.doneAborted k ∨ ∃ w, ev = Ev.warn w

/-- State evolution invariant of a single driver run: `chainKind`,
`ctxError` and `wrapInstalled` are preserved, the two lifecycle flags are
monotone, and the trace only grows by events of this run. -/
structure StepInv (a b : St) : Prop where
  kind : b.chainKind = a.chainKind
  ctx : b.ctxError = a.ctxError
  wrap : b.wrapInstalled = a.wrapInstalled
  monoAb : a.executionWasAborted = true → b.executionWasAborted = true
  monoComp : a.executionCompleted = true → b.executionCompleted = true
  traceOk : ∃ t, b.trace = a.trace ++ t ∧ ∀ ev ∈ t, EvOk a.chainKind a.ctxError ev

theorem stepInv_refl (a : St) : StepInv a a :=
  ⟨rfl, rfl, rfl, id, id, ⟨[], by simp, by simp⟩⟩

theorem StepInv.trans {a b c : St} (h1 : StepInv a b) (h2 : StepInv b c) :
    StepInv a c := by
  refine ⟨h2.kind.trans h1.kind, h2.ctx.trans h1.ctx, h2.wrap.trans h1.wrap,
    fun h => h2.monoAb (h1.monoAb h), fun h => h2.monoComp (h1.monoComp h), ?_⟩
  obtain ⟨t1, ht1, he1⟩ := h1.traceOk
  obtain ⟨t2, ht2, he2⟩ := h2.traceOk
  refine ⟨t1 ++ t2, by rw [ht2, ht1, List.append_assoc], ?_⟩
  intro ev hev
  rcases List.mem_append.1 hev with h | h
  · exact he1 ev h
  · have := he2 ev h
    rwa [h1.kind, h1.ctx] at this

theorem stepInv_addWarn (s : St) (w : Warn) : StepInv s (addEv s (Ev.warn w)) :=
  ⟨rfl, rfl, rfl, id, id, ⟨[Ev.warn w], rfl, by simp [EvOk]⟩⟩

theorem stepInv_runtimeDone (s : St) : StepInv s (runtimeDone s) := by
  unfold runtimeDone
  split
  · split
    · exact ⟨rfl, rfl, rfl, fun _ => rfl, id,
        ⟨[Ev.doneAborted s.chainKind], rfl, by simp [EvOk]⟩⟩
    · exact stepInv_addWarn s _
  · exact stepInv_addWarn s _

theorem stepInv_resEnd (s : St) : StepInv s (resEnd s) := by
  unfold resEnd
  split
  · split
    · split
      · refine StepInv.trans (b := { s with res := rawEnd s.res }) ?_ ?_
        · exact ⟨rfl, rfl, rfl, id, id, ⟨[], by simp, by simp⟩⟩
        · exact stepInv_runtimeDone _
      · exact ⟨rfl, rfl, rfl, id, id, ⟨[], by simp, by simp⟩⟩
    · exact ⟨rfl, rfl, rfl, id, id, ⟨[], by simp, by simp⟩⟩
  · exact ⟨rfl, rfl, rfl, id, id, ⟨[], by simp, by simp⟩⟩

theorem stepInv_setStatus (code : Nat) (s : St) : StepInv s (setStatusSt code s) :=
  ⟨rfl, rfl, rfl, id, id, ⟨[], by simp [setStatusSt], by simp⟩⟩

theorem stepInv_setOpt (b : Bool) (s : St) : StepInv s (setOptSt b s) :=
  ⟨rfl, rfl, rfl, id, id, ⟨[], by simp [setOptSt], by simp⟩⟩

/-- The `mwStart` instrumentation step in `pull` (index bump plus event). -/
theorem stepInv_mwStartEv (s : St) :
    StepInv s (addEv { s with idx := s.idx + 1 }
      (Ev.mwStart s.chainKind s.idx s.ctxError)) :=
  ⟨rfl, rfl, rfl, id, id,
    ⟨[Ev.mwStart s.chainKind s.idx s.ctxError], rfl, by simp [EvOk]⟩⟩

theorem stepInv_nonFnEv (s : St) :
    StepInv s (addEv { s with idx := s.idx + 1 } (Ev.warn Warn.nonFunctionEntry)) :=
  ⟨rfl, rfl, rfl, id, id, ⟨[Ev.warn Warn.nonFunctionEntry], rfl, by simp [EvOk]⟩⟩

theorem stepInv_ranFlag (s : St) :
    StepInv s { s with ranAtLeastOneMiddleware := true } :=
  ⟨rfl, rfl, rfl, id, id, ⟨[], by simp, by simp⟩⟩

/-- Basic invariants of every interpreter call: the remaining iterator of the
result is a suffix of the call's iterator, and the state satisfies the run
evolution invariant `StepInv`. -/
theorem run_basic : ∀ (n : Nat) (c : Call) (o : Out), run n c = some o →
    o.chain.IsSuffix c.chainOf ∧ StepInv c.stOf o.st := by
  intro n
  induction n with
  | zero => intro c o h; simp [run] at h
  | succ n ih =>
    intro c o h
    rcases c with ⟨chain, s⟩ | ⟨ops, cwp, chain, s⟩
    · rcases chain with _ | ⟨entry, rest⟩
      · simp only [run, Option.some.injEq] at h
        subst h
        exact ⟨List.suffix_rfl,
          ⟨rfl, rfl, rfl, id, fun _ => rfl, ⟨[], by simp [Call.stOf], by simp⟩⟩⟩
      · rcases entry with ops | _
        · simp only [run] at h
          split at h
          · exact absurd h (by simp)
          · next o1 heq =>
            obtain ⟨hsuf1, hinv1⟩ := ih _ _ heq
            have hinv1' : StepInv s o1.st := (stepInv_mwStartEv s).trans hinv1
            split at h
            · next e hth =>
              injection h with h; subst h
              exact ⟨hsuf1.trans (List.suffix_cons _ _), hinv1'⟩
            · next hth =>
              split at h
              · injection h with h; subst h
                exact ⟨hsuf1.trans (List.suffix_cons _ _),
                  hinv1'.trans (stepInv_ranFlag _)⟩
              · split at h
                · injection h with h; subst h
                  exact ⟨hsuf1.trans (List.suffix_cons _ _),
                    hinv1'.trans (stepInv_ranFlag _)⟩
                · obtain ⟨hsuf2, hinv2⟩ := ih _ _ h
                  exact ⟨(hsuf2.trans hsuf1).trans (List.suffix_cons _ _),
                    (hinv1'.trans (stepInv_ranFlag _)).trans hinv2⟩
        · simp only [run] at h
          split at h
          · injection h with h; subst h
            exact ⟨List.suffix_cons _ _, stepInv_nonFnEv s⟩
          · obtain ⟨hsuf1, hinv1⟩ := ih _ _ h
            exact ⟨hsuf1.trans (List.suffix_cons _ _),
              (stepInv_nonFnEv s).trans hinv1⟩
    · rcases ops with _ | ⟨op, rest⟩
      · simp only [run, Option.some.injEq] at h
        subst h
        exact ⟨List.suffix_rfl, stepInv_refl s⟩
      · rcases op with _ | _ | _ | code | e | b
        · -- next
          simp only [run] at h
          split at h
          · obtain ⟨hsuf1, hinv1⟩ := ih _ _ h
            exact ⟨hsuf1, (stepInv_addWarn s _).trans hinv1⟩
          · split at h
            · obtain ⟨hsuf1, hinv1⟩ := ih _ _ h
              exact ⟨hsuf1, (stepInv_addWarn s _).trans hinv1⟩
            · split at h
              · exact absurd h (by simp)
              · next o1 heq =>
                obtain ⟨hsuf1, hinv1⟩ := ih _ _ heq
                split at h
                · next e hth =>
                  injection h with h; subst h
                  exact ⟨hsuf1, hinv1⟩
                · next hth =>
                  obtain ⟨hsuf2, hinv2⟩ := ih _ _ h
                  exact ⟨hsuf2.trans hsuf1, hinv1.trans hinv2⟩
        · -- done
          simp only [run] at h
          obtain ⟨hsuf1, hinv1⟩ := ih _ _ h
          exact ⟨hsuf1, (stepInv_runtimeDone s).trans hinv1⟩
        · -- endRes
          simp only [run] at h
          obtain ⟨hsuf1, hinv1⟩ := ih _ _ h
          exact ⟨hsuf1, (stepInv_resEnd s).trans hinv1⟩
        · -- setStatus
          simp only [run] at h
          obtain ⟨hsuf1, hinv1⟩ := ih _ _ h
          exact ⟨hsuf1, (stepInv_setStatus code s).trans hinv1⟩
        · -- throwErr
          simp only [run, Option.some.injEq] at h
          subst h
          exact ⟨List.suffix_rfl, stepInv_refl s⟩
        · -- setCallDoneOnEnd
          simp only [run] at h
          obtain ⟨hsuf1, hinv1⟩ := ih _ _ h
          exact ⟨hsuf1, (stepInv_setOpt b s).trans hinv1⟩

theorem chainWeight_cons (e : Entry) (l : List Entry) :
    chainWeight (e :: l) = entryWeight e + chainWeight l := by
  simp [chainWeight]

theorem chainWeight_suffix_le {l1 l2 : List Entry} (h : l1.IsSuffix l2) :
    chainWeight l1 ≤ chainWeight l2 := by
  obtain ⟨t, rfl⟩ := h
  simp [chainWeight]

/-- The fuel bound `callWeight` is sufficient: the interpreter never runs out
of fuel when given more than the weight of its call. -/
theorem run_total : ∀ (n : Nat) (c : Call), callWeight c < n →
    (run n c).isSome = true := by
  intro n
  induction n with
  | zero => intro c hw; exact absurd hw (by omega)
  | succ n ih =>
    intro c hw
    rcases c with ⟨chain, s⟩ | ⟨ops, cwp, chain, s⟩
    · rcases chain with _ | ⟨entry, rest⟩
      · simp [run]
      · rcases entry with ops | _
        · simp only [callWeight, chainWeight_cons, entryWeight] at hw
          have hw1 : callWeight (Call.mws ops false rest
              (addEv { s with idx := s.idx + 1 }
                (Ev.mwStart s.chainKind s.idx s.ctxError))) < n := by
            simp only [callWeight]; omega
          have h1 := ih _ hw1
          rcases hrec : run n (Call.mws ops false rest
              (addEv { s with idx := s.idx + 1 }
                (Ev.mwStart s.chainKind s.idx s.ctxError))) with _ | o1
          · rw [hrec] at h1; simp at h1
          · obtain ⟨hsuf1, -⟩ := run_basic _ _ _ hrec
            simp only [run, hrec]
            rcases hth : o1.thrown with _ | e
            · simp only [hth]
              split
              · simp
              · split
                · simp
                · refine ih _ ?_
                  simp only [callWeight]
                  have := chainWeight_suffix_le hsuf1
                  simp only [Call.chainOf] at this
                  omega
            · simp [hth]
        · simp only [callWeight, chainWeight_cons, entryWeight] at hw
          simp only [run]
          split
          · simp
          · refine ih _ ?_
            simp only [callWeight]
            omega
    · rcases ops with _ | ⟨op, rest⟩
      · simp [run]
      · rcases op with _ | _ | _ | code | e | b
        · -- next
          simp only [callWeight, List.length_cons] at hw
          simp only [run]
          split
          · refine ih _ ?_; simp only [callWeight]; omega
          · split
            · refine ih _ ?_; simp only [callWeight]; omega
            · have hwp : callWeight (Call.pull chain s) < n := by
                simp only [callWeight]; omega
              have h1 := ih _ hwp
              rcases hrec : run n (Call.pull chain s) with _ | o1
              · rw [hrec] at h1; simp at h1
              · obtain ⟨hsuf1, -⟩ := run_basic _ _ _ hrec
                simp only [hrec]
                rcases hth : o1.thrown with _ | e
                · simp only [hth]
                  refine ih _ ?_
                  simp only [callWeight]
                  have := chainWeight_suffix_le hsuf1
                  simp only [Call.chainOf] at this
                  omega
                · simp [hth]
        · simp only [callWeight, List.length_cons] at hw
          simp only [run]
          refine ih _ ?_; simp only [callWeight]; omega
        · simp only [callWeight, List.length_cons] at hw
          simp only [run]
          refine ih _ ?_; simp only [callWeight]; omega
        · simp only [callWeight, List.length_cons] at hw
          simp only [run]
          refine ih _ ?_; simp only [callWeight]; omega
        · simp [run]
        · simp only [callWeight, List.length_cons] at hw
          simp only [run]
          refine ih _ ?_; simp only [callWeight]; omega

/-! Trace-ordering machinery: after an effective `done()` no further
middleware is invoked within the run. -/

/-- No middleware invocation occurs in the trace segment. -/
def NoMw (t : List Ev) : Prop := ∀ k i e, Ev.mwStart k i e ∉ t

/-- No effective `done()` abort occurs in the trace segment. -/
def NoDa (t : List Ev) : Prop := ∀ k, Ev.doneAborted k ∉ t

/-- After every effective `done()` in the segment, no middleware invocation
follows. -/
def Nmad (t : List Ev) : Prop :=
  ∀ u1 k u2, t = u1 ++ Ev.doneAborted k :: u2 → NoMw u2

theorem noMw_nil : NoMw [] := by intro k i e h; simp at h

theorem noDa_nil : NoDa [] := by intro k h; simp at h

theorem nmad_nil : Nmad [] := by
  intro u1 k u2 h
  exact absurd h (by simp)

theorem noMw_append {a b : List Ev} (ha : NoMw a) (hb : NoMw b) :
    NoMw (a ++ b) := by
  intro k i e h
  rcases List.mem_append.1 h with h | h
  · exact ha k i e h
  · exact hb k i e h

theorem noDa_append {a b : List Ev} (ha : NoDa a) (hb : NoDa b) :
    NoDa (a ++ b) := by
  intro k h
  rcases List.mem_append.1 h with h | h
  · exact ha k h
  · exact hb k h

/-- Splitting an append at a distinguished element. -/
theorem split_of_append_eq {α : Type} :
    ∀ {a : List α} (b : List α) {u1 u2 : List α} {x : α},
      a ++ b = u1 ++ x :: u2 →
      (∃ w, a = u1 ++ x :: w ∧ u2 = w ++ b) ∨
      (∃ w, b = w ++ x :: u2 ∧ u1 = a ++ w) := by
  intro a
  induction a with
  | nil =>
    intro b u1 u2 x h
    exact Or.inr ⟨u1, h, by simp⟩
  | cons y a' ih =>
    intro b u1 u2 x h
    rcases u1 with _ | ⟨z, u1'⟩
    · simp only [List.nil_append, List.cons_append, List.cons.injEq] at h
      exact Or.inl ⟨a', by simp [h.1], h.2.symm⟩
    · simp only [List.cons_append, List.cons.injEq] at h
      rcases ih b h.2 with ⟨w, hw1, hw2⟩ | ⟨w, hw1, hw2⟩
      · exact Or.inl ⟨w, by simp [h.1, hw1], hw2⟩
      · exact Or.inr ⟨w, hw1, by simp [h.1, hw2]⟩

theorem nmad_append {a b : List Ev} (ha : Nmad a) (hb : Nmad b)
    (hab : ∀ k, Ev.doneAborted k ∈ a → NoMw b) : Nmad (a ++ b) := by
  intro u1 k u2 h
  rcases split_of_append_eq b h with ⟨w, hw1, hw2⟩ | ⟨w, hw1, hw2⟩
  · subst hw2
    have hInA : Ev.doneAborted k ∈ a := by rw [hw1]; simp
    exact noMw_append (ha u1 k w hw1) (hab k hInA)
  · exact hb w k u2 hw1

/-- A singleton segment trivially satisfies the ordering property. -/
theorem nmad_single (ev : Ev) : Nmad [ev] := by
  intro u1 k u2 h
  rcases u1 with _ | ⟨y, u1'⟩
  · simp only [List.nil_append, List.cons.injEq] at h
    rw [h.2.symm]; exact noMw_nil
  · simp only [List.cons_append, List.cons.injEq] at h
    exact absurd h.2 (by simp)

/-- Abort-ordering invariant of a state transition appending trace `t`:
the aborted flag is monotone; if the run entered aborted, no middleware is
invoked and no effective abort is recorded; if the run leaves non-aborted,
no effective abort was recorded; and after every effective abort in `t` no
middleware invocation follows. -/
structure AInv (a b : St) (t : List Ev) : Prop where
  monoAb : a.executionWasAborted = true → b.executionWasAborted = true
  startAb : a.executionWasAborted = true → NoMw t ∧ NoDa t
  endAb : b.executionWasAborted = false → NoDa t
  nmad : Nmad t

/-- A state transition together with its appended trace segment. -/
def ARun (a b : St) : Prop := ∃ t, b.trace = a.trace ++ t ∧ AInv a b t

theorem ARun.comp {a b c : St} (h1 : ARun a b) (h2 : ARun b c) : ARun a c := by
  obtain ⟨t1, ht1, i1⟩ := h1
  obtain ⟨t2, ht2, i2⟩ := h2
  refine ⟨t1 ++ t2, by rw [ht2, ht1, List.append_assoc], ?_⟩
  refine ⟨fun h => i2.monoAb (i1.monoAb h), ?_, ?_, ?_⟩
  · intro h
    obtain ⟨hm1, hd1⟩ := i1.startAb h
    obtain ⟨hm2, hd2⟩ := i2.startAb (i1.monoAb h)
    exact ⟨noMw_append hm1 hm2, noDa_append hd1 hd2⟩
  · intro h
    have hb : b.executionWasAborted = false := by
      by_contra hb
      have := i2.monoAb (by revert hb; cases b.executionWasAborted <;> simp)
      rw [this] at h; exact absurd h (by simp)
    exact noDa_append (i1.endAb hb) (i2.endAb h)
  · refine nmad_append i1.nmad i2.nmad ?_
    intro k hk
    have hb : b.executionWasAborted = true := by
      by_contra hb
      have hb' : b.executionWasAborted = false := by
        revert hb; cases b.executionWasAborted <;> simp
      exact absurd hk (i1.endAb hb' k)
    exact (i2.startAb hb).1

/-- A transition that changes no flags and appends nothing. -/
theorem ARun.ofSilent {a b : St} (htr : b.trace = a.trace)
    (hab : b.executionWasAborted = a.executionWasAborted) : ARun a b :=
  ⟨[], by simp [htr], ⟨by rw [hab]; exact id, fun _ => ⟨noMw_nil, noDa_nil⟩,
    fun _ => noDa_nil, nmad_nil⟩⟩

theorem arun_refl (a : St) : ARun a a := ARun.ofSilent rfl rfl

/-- Appending a warning (or any non-`mwStart`, non-`doneAborted` event)
without touching flags. -/
theorem arun_addWarn (s : St) (w : Warn) : ARun s (addEv s (Ev.warn w)) := by
  refine ⟨[Ev.warn w], rfl, ⟨id, fun _ => ⟨?_, ?_⟩, fun _ => ?_, nmad_single _⟩⟩
  · intro k i e h; simp at h
  · intro k h; simp at h
  · intro k h; simp at h

theorem arun_runtimeDone (s : St) : ARun s (runtimeDone s) := by
  unfold runtimeDone
  split
  · split
    · next hab =>
      refine ⟨[Ev.doneAborted s.chainKind], rfl,
        ⟨fun _ => rfl, fun h => ?_, fun h => ?_, nmad_single _⟩⟩
      · simp only [Bool.not_eq_true'] at hab
        rw [hab] at h; exact absurd h (by simp)
      · exact absurd h (by simp)
    · exact arun_addWarn s _
  · exact arun_addWarn s _

theorem arun_resEnd (s : St) : ARun s (resEnd s) := by
  unfold resEnd
  split
  · split
    · split
      · exact (ARun.ofSilent rfl rfl :
          ARun s { s with res := rawEnd s.res }).comp (arun_runtimeDone _)
      · exact ARun.ofSilent rfl rfl
    · exact ARun.ofSilent rfl rfl
  · exact ARun.ofSilent rfl rfl

/-- Invoking a middleware records `mwStart`; this is only ever done when the
run is not aborted. -/
theorem arun_mwStartEv (s : St) (h : s.executionWasAborted = false) :
    ARun s (addEv { s with idx := s.idx + 1 }
      (Ev.mwStart s.chainKind s.idx s.ctxError)) := by
  refine ⟨[Ev.mwStart s.chainKind s.idx s.ctxError], rfl,
    ⟨id, fun hab => absurd hab (by simp [h]), fun _ => ?_, nmad_single _⟩⟩
  intro k hk; simp at hk

/-- Which interpreter calls actually occur: `pull` is only ever invoked on a
non-aborted run (guarded at every call site in the source). -/
def callOk : Call → Prop
  | Call.pull _ s => s.executionWasAborted = false
  | Call.mws _ _ _ _ => True

/-- Abort-ordering invariant of every (reachable) interpreter call. -/
theorem run_ainv : ∀ (n : Nat) (c : Call) (o : Out), run n c = some o →
    callOk c → ARun c.stOf o.st := by
  intro n
  induction n with
  | zero => intro c o h _; simp [run] at h
  | succ n ih =>
    intro c o h hok
    rcases c with ⟨chain, s⟩ | ⟨ops, cwp, chain, s⟩
    · have hs : s.executionWasAborted = false := hok
      rcases chain with _ | ⟨entry, rest⟩
      · simp only [run, Option.some.injEq] at h
        subst h
        exact ARun.ofSilent rfl rfl
      · rcases entry with ops | _
        · simp only [run] at h
          split at h
          · exact absurd h (by simp)
          · next o1 heq =>
            have ha1 : ARun s o1.st :=
              (arun_mwStartEv s hs).comp (ih _ _ heq trivial)
            split at h
            · next e hth =>
              injection h with h; subst h
              exact ha1
            · next hth =>
              split at h
              · injection h with h; subst h
                exact ha1.comp (ARun.ofSilent rfl rfl)
              · next hab =>
                split at h
                · injection h with h; subst h
                  exact ha1.comp (ARun.ofSilent rfl rfl)
                · have hok2 : callOk (Call.pull o1.chain
                      { o1.st with ranAtLeastOneMiddleware := true }) := by
                    simp only [callOk]
                    revert hab
                    cases h2 : ({ o1.st with ranAtLeastOneMiddleware := true } :
                      St).executionWasAborted <;> simp
                  exact (ha1.comp (ARun.ofSilent rfl rfl :
                    ARun o1.st { o1.st with ranAtLeastOneMiddleware := true })).comp
                    (ih _ _ h hok2)
        · simp only [run] at h
          split at h
          · injection h with h; subst h
            exact (ARun.ofSilent rfl rfl : ARun s { s with idx := s.idx + 1 }).comp
              (arun_addWarn { s with idx := s.idx + 1 } Warn.nonFunctionEntry)
          · next hab =>
            have hok2 : callOk (Call.pull rest
                (addEv { s with idx := s.idx + 1 } (Ev.warn Warn.nonFunctionEntry))) := by
              simp only [callOk]
              revert hab
              cases h2 : (addEv { s with idx := s.idx + 1 }
                (Ev.warn Warn.nonFunctionEntry)).executionWasAborted <;> simp
            exact ((ARun.ofSilent rfl rfl : ARun s { s with idx := s.idx + 1 }).comp
              (arun_addWarn { s with idx := s.idx + 1 } Warn.nonFunctionEntry)).comp
              (ih _ _ h hok2)
    · rcases ops with _ | ⟨op, rest⟩
      · simp only [run, Option.some.injEq] at h
        subst h
        exact arun_refl s
      · rcases op with _ | _ | _ | code | e | b
        · -- next
          simp only [run] at h
          split at h
          · exact (arun_addWarn s _).comp (ih _ _ h trivial)
          · split at h
            · exact (arun_addWarn s _).comp (ih _ _ h trivial)
            · next hab =>
              have hs : s.executionWasAborted = false := by
                revert hab; cases s.executionWasAborted <;> simp
              split at h
              · exact absurd h (by simp)
              · next o1 heq =>
                have ha1 : ARun s o1.st := ih _ _ heq hs
                split at h
                · next e hth =>
                  injection h with h; subst h
                  exact ha1
                · next hth =>
                  exact ha1.comp (ih _ _ h trivial)
        · -- done
          simp only [run] at h
          exact (arun_runtimeDone s).comp (ih _ _ h trivial)
        · -- endRes
          simp only [run] at h
          exact (arun_resEnd s).comp (ih _ _ h trivial)
        · -- setStatus
          simp only [run] at h
          exact (ARun.ofSilent rfl rfl :
            ARun s (setStatusSt code s)).comp (ih _ _ h trivial)
        · -- throwErr
          simp only [run, Option.some.injEq] at h
          subst h
          exact arun_refl s
        · -- setCallDoneOnEnd
          simp only [run] at h
          exact (ARun.ofSilent rfl rfl :
            ARun s (setOptSt b s)).comp (ih _ _ h trivial)

/-! Completion of tame chains when the `res.end` wrapper is not installed. -/

/-- A middleware action that neither aborts (`done`) nor throws. -/
def tameOp : MwOp → Bool
  | MwOp.done => false
  | MwOp.throwErr _ => false
  | _ => true

/-- A chain entry that cannot abort the run or throw. -/
def tameEntry : Entry → Bool
  | Entry.mw ops => ops.all tameOp
  | Entry.nonFunction => true

theorem resEnd_noWrap (s : St) (h : s.wrapInstalled = false) :
    resEnd s = { s with res := rawEnd s.res } := by
  simp [resEnd, h]

theorem all_tame_of_suffix {l1 l2 : List Entry} (hs : l1.IsSuffix l2)
    (h : l2.all tameEntry = true) : l1.all tameEntry = true := by
  rw [List.all_eq_true] at h ⊢
  exact fun x hx => h x (hs.subset hx)

/-- If the wrapper is not installed and the chain contains no `done` and no
throwing action, the run never aborts, never throws, and (for a `pull` call)
always reaches `executionCompleted`. -/
theorem run_tame : ∀ (n : Nat),
    (∀ chain s o, run n (Call.pull chain s) = some o →
       s.wrapInstalled = false → chain.all tameEntry = true →
       s.executionWasAborted = false →
       o.thrown = none ∧ o.st.executionWasAborted = false ∧
       o.st.executionCompleted = true) ∧
    (∀ ops cwp chain s o, run n (Call.mws ops cwp chain s) = some o →
       s.wrapInstalled = false → chain.all tameEntry = true →
       ops.all tameOp = true → s.executionWasAborted = false →
       (cwp = true → s.executionCompleted = true) →
       o.thrown = none ∧ o.st.executionWasAborted = false ∧
       (o.cwp = true → o.st.executionCompleted = true)) := by
  intro n
  induction n with
  | zero =>
    constructor
    · intro chain s o h; simp [run] at h
    · intro ops cwp chain s o h; simp [run] at h
  | succ n ih =>
    constructor
    · intro chain s o h hwrap htame hab
      rcases chain with _ | ⟨entry, rest⟩
      · simp only [run, Option.some.injEq] at h
        subst h
        exact ⟨rfl, hab, rfl⟩
      · simp only [List.all_cons, Bool.and_eq_true] at htame
        rcases entry with ops | _
        · simp only [run] at h
          split at h
          · exact absurd h (by simp)
          · next o1 heq =>
            have hops : ops.all tameOp = true := htame.1
            obtain ⟨hth1, hab1, hcwp1⟩ := ih.2 ops false rest _ o1 heq hwrap
              htame.2 hops hab (by simp)
            obtain ⟨hsuf1, hinv1⟩ := run_basic _ _ _ heq
            split at h
            · next e hth =>
              rw [hth1] at hth; exact absurd hth (by simp)
            · next hth =>
              split at h
              · next habs =>
                rw [show ({ o1.st with ranAtLeastOneMiddleware := true } :
                  St).executionWasAborted = o1.st.executionWasAborted from rfl, hab1]
                  at habs
                exact absurd habs (by simp)
              · split at h
                · next hcwp =>
                  injection h with h; subst h
                  exact ⟨rfl, hab1, hcwp1 hcwp⟩
                · obtain ⟨hth2, hab2, hcomp2⟩ := (ih.1) o1.chain _ o h
                    (by exact hinv1.wrap.trans hwrap)
                    (all_tame_of_suffix (by exact hsuf1) htame.2)
                    (by exact hab1)
                  exact ⟨hth2, hab2, hcomp2⟩
        · simp only [run] at h
          split at h
          · next habs =>
            exact absurd habs (by simp [addEv, hab])
          · obtain ⟨hth2, hab2, hcomp2⟩ := (ih.1) rest _ o h
              (by exact hwrap) htame.2 (by exact hab)
            exact ⟨hth2, hab2, hcomp2⟩
    · intro ops cwp chain s o h hwrap htame hops hab hcwp
      rcases ops with _ | ⟨op, rest⟩
      · simp only [run, Option.some.injEq] at h
        subst h
        exact ⟨rfl, hab, hcwp⟩
      · simp only [List.all_cons, Bool.and_eq_true] at hops
        rcases op with _ | _ | _ | code | e | b
        · -- next
          simp only [run] at h
          split at h
          · next hcomp =>
            obtain ⟨hth2, hab2, hcomp2⟩ := ih.2 rest cwp chain _ o h
              (by exact hwrap) htame hops.2 (by exact hab)
              (fun hc => by simp [addEv, hcomp])
            exact ⟨hth2, hab2, hcomp2⟩
          · split at h
            · next habs => exact absurd habs (by simp [hab])
            · split at h
              · exact absurd h (by simp)
              · next o1 heq =>
                obtain ⟨hth1, hab1, hcomp1⟩ := (ih.1) chain s o1 heq hwrap htame hab
                obtain ⟨hsuf1, hinv1⟩ := run_basic _ _ _ heq
                split at h
                · next e hth =>
                  rw [hth1] at hth; exact absurd hth (by simp)
                · next hth =>
                  obtain ⟨hth2, hab2, hcomp2⟩ := ih.2 rest true o1.chain o1.st o h
                    (hinv1.wrap.trans hwrap)
                    (all_tame_of_suffix (by exact hsuf1) htame)
                    hops.2 hab1 (fun _ => hcomp1)
                  exact ⟨hth2, hab2, hcomp2⟩
        · -- done: not tame
          exact absurd hops.1 (by simp [tameOp])
        · -- endRes
          simp only [run] at h
          rw [resEnd_noWrap s hwrap] at h
          obtain ⟨hth2, hab2, hcomp2⟩ := ih.2 rest cwp chain _ o h
            (by exact hwrap) htame hops.2 (by exact hab) (fun hc => hcwp hc)
          exact ⟨hth2, hab2, hcomp2⟩
        · -- setStatus
          simp only [run] at h
          obtain ⟨hth2, hab2, hcomp2⟩ := ih.2 rest cwp chain _ o h
            (by exact hwrap) htame hops.2 (by exact hab) (fun hc => hcwp hc)
          exact ⟨hth2, hab2, hcomp2⟩
        · -- throwErr: not tame
          exact absurd hops.1 (by simp [tameOp])
        · -- setCallDoneOnEnd
          simp only [run] at h
          obtain ⟨hth2, hab2, hcomp2⟩ := ih.2 rest cwp chain _ o h
            (by exact hwrap) htame hops.2 (by exact hab) (fun hc => hcwp hc)
          exact ⟨hth2, hab2, hcomp2⟩

/-! Driver-run ("startPullingChain") level lemmas. -/

theorem spc_isSome (kind : ChainKind) (chain : List Entry) (s : St) :
    (startPullingChain kind chain s).isSome = true := by
  have ht := run_total (chainWeight chain + 2) (Call.pull chain (runInit kind s))
    (by simp only [callWeight]; omega)
  unfold startPullingChain
  split
  · next heq => rw [heq] at ht; simp at ht
  · split <;> simp

/-- Case analysis of a driver run: the interpreter result, and the catch
behaviour (set `executionWasAborted`, warn, rethrow) on a thrown value. -/
theorem spc_elim {kind : ChainKind} {chain : List Entry} {s s' : St}
    {th : Option Nat}
    (h : startPullingChain kind chain s = some (s', th)) :
    ∃ o : Out,
      run (chainWeight chain + 2) (Call.pull chain (runInit kind s)) = some o ∧
      o.thrown = th ∧
      ((th = none ∧ s' = o.st) ∨
       (∃ e, th = some e ∧
         s' = addEv { o.st with executionWasAborted := true }
                (Ev.warn Warn.chainAbortedByError))) := by
  unfold startPullingChain at h
  split at h
  · exact absurd h (by simp)
  · next o heq =>
    split at h
    · next e hth =>
      injection h with h
      injection h with h1 h2
      exact ⟨o, heq, hth.trans (by rw [h2]), Or.inr ⟨e, h2.symm, h1.symm⟩⟩
    · next hth =>
      injection h with h
      injection h with h1 h2
      exact ⟨o, heq, hth.trans (by rw [h2]), Or.inl ⟨h2.symm, h1.symm⟩⟩

/-- A driver run preserves `ctxError`, stamps its events with its own chain
kind and the current `runtime.error`, and only appends events of the run. -/
theorem spc_events {kind : ChainKind} {chain : List Entry} {s s' : St}
    {th : Option Nat}
    (h : startPullingChain kind chain s = some (s', th)) :
    s'.ctxError = s.ctxError ∧ s'.chainKind = kind ∧
    ∃ t, s'.trace = s.trace ++ t ∧ ∀ ev ∈ t, EvOk kind s.ctxError ev := by
  obtain ⟨o, hrec, hth, hcase⟩ := spc_elim h
  obtain ⟨-, hinv⟩ := run_basic _ _ _ hrec
  have hctx : o.st.ctxError = s.ctxError := hinv.ctx
  have hkind : o.st.chainKind = kind := hinv.kind
  obtain ⟨t, htr, hev⟩ := hinv.traceOk
  have htr' : o.st.trace = s.trace ++ t := htr
  have hev' : ∀ ev ∈ t, EvOk kind s.ctxError ev := hev
  rcases hcase with ⟨-, rfl⟩ | ⟨e, -, rfl⟩
  · exact ⟨hctx, hkind, t, htr', hev'⟩
  · refine ⟨hctx, hkind, t ++ [Ev.warn Warn.chainAbortedByError], ?_, ?_⟩
    · simp only [addEv, htr', List.append_assoc]
    · intro ev hev2
      rcases List.mem_append.1 hev2 with h2 | h2
      · exact hev' ev h2
      · simp only [List.mem_singleton] at h2
        subst h2
        exact Or.inr (Or.inr ⟨_, rfl⟩)

/-- Abort-ordering facts of a driver run: the appended trace segment is
well-ordered (`Nmad`), and if the run ends non-aborted no effective abort was
recorded. -/
theorem spc_ainv {kind : ChainKind} {chain : List Entry} {s s' : St}
    {th : Option Nat}
    (h : startPullingChain kind chain s = some (s', th)) :
    ∃ t, s'.trace = s.trace ++ t ∧ Nmad t ∧
      (s'.executionWasAborted = false → NoDa t) := by
  obtain ⟨o, hrec, hth, hcase⟩ := spc_elim h
  obtain ⟨t0, htr0, hai⟩ := run_ainv _ _ _ hrec (by exact rfl)
  have htr0' : o.st.trace = s.trace ++ t0 := htr0
  rcases hcase with ⟨-, rfl⟩ | ⟨e, -, rfl⟩
  · exact ⟨t0, htr0', hai.nmad, hai.endAb⟩
  · refine ⟨t0 ++ [Ev.warn Warn.chainAbortedByError], ?_, ?_, ?_⟩
    · simp only [addEv, htr0', List.append_assoc]
    · refine nmad_append hai.nmad (nmad_single _) ?_
      intro k hk
      intro k' i e' hm
      simp at hm
    · intro hab
      exact absurd hab (by simp [addEv])

/-- If a driver run returns normally without aborting, no effective abort
event was appended by it. -/
theorem spc_noDa {kind : ChainKind} {chain : List Entry} {s s' : St}
    (h : startPullingChain kind chain s = some (s', none))
    (hab : s'.executionWasAborted = false) :
    ∃ t, s'.trace = s.trace ++ t ∧ NoDa t := by
  obtain ⟨t, htr, -, hnd⟩ := spc_ainv h
  exact ⟨t, htr, hnd hab⟩

/-- A run that throws always ends aborted (the catch at source lines
243-247). -/
theorem spc_thrown_aborted {kind : ChainKind} {chain : List Entry} {s s' : St}
    {e : Nat} (h : startPullingChain kind chain s = some (s', some e)) :
    s'.executionWasAborted = true := by
  obtain ⟨o, hrec, hth, hcase⟩ := spc_elim h
  rcases hcase with ⟨hc, -⟩ | ⟨e', -, rfl⟩
  · exact absurd hc (by simp)
  · simp [addEv]

/-! Orchestrator-level elimination lemmas. -/

theorem notSent_or {a b : Bool} (h : ¬(a = false ∧ b = false)) :
    a = true ∨ b = true := by
  cases a
  · cases b
    · exact absurd ⟨rfl, rfl⟩ h
    · exact Or.inr rfl
  · exact Or.inl rfl

theorem finishSuccess_elim (prim : Option Nat) (s : St) :
    (finishSuccess prim s).caughtError = none ∧
    (finishSuccess prim s).propagated = none ∧
    (finishSuccess prim s).primaryChainThrown = prim ∧
    (finishSuccess prim s).errorChainThrown = none ∧
    (finishSuccess prim s).optCallDoneOnEnd = s.optCallDoneOnEnd ∧
    ((s.res.writableEnded = false ∧ s.res.headersSent = false ∧
      (finishSuccess prim s).res = sendNotImplemented s.res ∧
      (finishSuccess prim s).trace = s.trace ++ [Ev.notImplementedSent]) ∨
     ((s.res.writableEnded = true ∨ s.res.headersSent = true) ∧
      (finishSuccess prim s).res = s.res ∧
      (finishSuccess prim s).trace = s.trace)) := by
  unfold finishSuccess
  split
  · next hcond =>
    simp only [Bool.and_eq_true, Bool.not_eq_true'] at hcond
    exact ⟨rfl, rfl, rfl, rfl, rfl, Or.inl ⟨hcond.1, hcond.2, rfl, rfl⟩⟩
  · next hcond =>
    simp only [Bool.and_eq_true, Bool.not_eq_true'] at hcond
    exact ⟨rfl, rfl, rfl, rfl, rfl, Or.inr ⟨notSent_or hcond, rfl, rfl⟩⟩

theorem handleErrorPath_elim {cfg : Config} {prim : Option Nat} {s : St}
    {e : Nat} {r : ReqResult}
    (h : handleErrorPath cfg prim s e = some r) :
    r.primaryChainThrown = prim ∧ r.caughtError = some e ∧
    ((cfg.useOnError = none ∧ r.res = s.res ∧ r.trace = s.trace ∧
      r.optCallDoneOnEnd = s.optCallDoneOnEnd ∧ r.errorChainThrown = none ∧
      r.errorRunCompleted = none ∧ r.propagated = some e) ∨
     (∃ chainE s2 th2, cfg.useOnError = some chainE ∧
       startPullingChain ChainKind.errorChain chainE
         (addEv { s with ctxError := some e } Ev.errorChainStarted) =
         some (s2, th2) ∧
       r.res = s2.res ∧ r.trace = s2.trace ∧
       r.optCallDoneOnEnd = s2.optCallDoneOnEnd ∧
       r.errorChainThrown = th2 ∧
       r.errorRunCompleted = some s2.executionCompleted ∧
       ((∃ e2, th2 = some e2 ∧ r.propagated = some e2) ∨
        (th2 = none ∧
         ((s2.res.writableEnded = false ∧ s2.res.headersSent = false ∧
           r.propagated = some e) ∨
          ((s2.res.writableEnded = true ∨ s2.res.headersSent = true) ∧
           r.propagated = none)))))) := by
  unfold handleErrorPath at h
  split at h
  · next chainE huoe =>
    split at h
    · exact absurd h (by simp)
    · next s2 subE heq =>
      injection h with h; subst h
      exact ⟨rfl, rfl, Or.inr ⟨chainE, s2, some subE, huoe, heq, rfl, rfl, rfl,
        rfl, rfl, Or.inl ⟨subE, rfl, rfl⟩⟩⟩
    · next s2 heq =>
      split at h
      · next hcond =>
        simp only [Bool.and_eq_true, Bool.not_eq_true'] at hcond
        injection h with h; subst h
        exact ⟨rfl, rfl, Or.inr ⟨chainE, s2, none, huoe, heq, rfl, rfl, rfl,
          rfl, rfl, Or.inr ⟨rfl, Or.inl ⟨hcond.1, hcond.2, rfl⟩⟩⟩⟩
      · next hcond =>
        simp only [Bool.and_eq_true, Bool.not_eq_true'] at hcond
        injection h with h; subst h
        exact ⟨rfl, rfl, Or.inr ⟨chainE, s2, none, huoe, heq, rfl, rfl, rfl,
          rfl, rfl, Or.inr ⟨rfl, Or.inr ⟨notSent_or hcond, rfl⟩⟩⟩⟩
  · next huoe =>
    injection h with h; subst h
    exact ⟨rfl, rfl, Or.inl ⟨huoe, rfl, rfl, rfl, rfl, rfl, rfl⟩⟩

theorem runRequestO_elim {cfg : Config} {r : ReqResult}
    (h : runRequestO cfg = some r) :
    ∃ (s1 : St) (th1 : Option Nat),
      startPullingChain ChainKind.primary cfg.use (initSt cfg) =
        some (s1, th1) ∧
      ((∃ e, th1 = some e ∧ handleErrorPath cfg (some e) s1 e = some r) ∨
       (th1 = none ∧
         ((cfg.handler = none ∧ r = finishSuccess none s1) ∨
          (∃ hops, cfg.handler = some hops ∧ s1.executionWasAborted = true ∧
            r = finishSuccess none s1) ∨
          (∃ hops rs e2, cfg.handler = some hops ∧
            s1.executionWasAborted = false ∧
            runHandlerOps hops (addEv s1 Ev.handlerStart).res = (rs, some e2) ∧
            handleErrorPath cfg none
              { addEv s1 Ev.handlerStart with res := rs } e2 = some r) ∨
          (∃ hops rs, cfg.handler = some hops ∧
            s1.executionWasAborted = false ∧
            runHandlerOps hops (addEv s1 Ev.handlerStart).res = (rs, none) ∧
            r = finishSuccess none
              { addEv s1 Ev.handlerStart with res := rs })))) := by
  unfold runRequestO at h
  split at h
  · exact absurd h (by simp)
  · next s1 e hspc =>
    exact ⟨s1, some e, hspc, Or.inl ⟨e, rfl, h⟩⟩
  · next s1 hspc =>
    split at h
    · next hops hh =>
      split at h
      · next hab =>
        injection h with h
        exact ⟨s1, none, hspc, Or.inr ⟨rfl, Or.inr (Or.inl ⟨hops, hh, hab,
          h.symm⟩)⟩⟩
      · next hab =>
        have hab' : s1.executionWasAborted = false := by
          revert hab; cases s1.executionWasAborted <;> simp
        split at h
        · next rs e2 hrun =>
          exact ⟨s1, none, hspc, Or.inr ⟨rfl, Or.inr (Or.inr (Or.inl
            ⟨hops, rs, e2, hh, hab', hrun, h⟩))⟩⟩
        · next rs hrun =>
          injection h with h
          exact ⟨s1, none, hspc, Or.inr ⟨rfl, Or.inr (Or.inr (Or.inr
            ⟨hops, rs, hh, hab', hrun, h.symm⟩))⟩⟩
    · next hh =>
      injection h with h
      exact ⟨s1, none, hspc, Or.inr ⟨rfl, Or.inl ⟨hh, h.symm⟩⟩⟩

theorem handleErrorPath_isSome (cfg : Config) (prim : Option Nat) (s : St)
    (e : Nat) : (handleErrorPath cfg prim s e).isSome = true := by
  unfold handleErrorPath
  split
  · next chainE huoe =>
    have := spc_isSome ChainKind.errorChain chainE
      (addEv { s with ctxError := some e } Ev.errorChainStarted)
    split
    · next heq => rw [heq] at this; simp at this
    · simp
    · split <;> simp
  · simp

theorem runRequestO_isSome (cfg : Config) : (runRequestO cfg).isSome = true := by
  unfold runRequestO
  have hp := spc_isSome ChainKind.primary cfg.use (initSt cfg)
  split
  · next heq => rw [heq] at hp; simp at hp
  · next s1 e hspc => exact handleErrorPath_isSome cfg (some e) s1 e
  · next s1 hspc =>
    split
    · split
      · simp
      · split
        · next rs e2 hrun => exact handleErrorPath_isSome cfg none _ e2
        · simp
    · simp

theorem runRequest_eq (cfg : Config) : runRequestO cfg = some (runRequest cfg) := by
  have := runRequestO_isSome cfg
  rcases h : runRequestO cfg with _ | r
  · rw [h] at this; simp at this
  · simp [runRequest, h]

/-! Request-level trace anatomy. -/

/-- The full trace of one request decomposes into the primary run's segment
followed by the orchestrator's tail (handler invocation, not-implemented
fallback, and/or error-chain segment), with the properties each claim
needs. -/
theorem request_shape (cfg : Config) :
    ∃ (s1 : St) (th1 : Option Nat) (tpost : List Ev),
      startPullingChain ChainKind.primary cfg.use (initSt cfg) =
        some (s1, th1) ∧
      (runRequest cfg).trace = s1.trace ++ tpost ∧
      (runRequest cfg).primaryChainThrown = th1 ∧
      (∀ e, th1 = some e → (runRequest cfg).caughtError = some e) ∧
      (∀ ev ∈ s1.trace, EvOk ChainKind.primary none ev) ∧
      Nmad s1.trace ∧
      (s1.executionWasAborted = false → NoDa s1.trace) ∧
      (∀ ev ∈ tpost, ev = Ev.handlerStart ∨ ev = Ev.notImplementedSent ∨
        (∃ e, (runRequest cfg).caughtError = some e ∧
          (ev = Ev.errorChainStarted ∨ EvOk ChainKind.errorChain (some e) ev))) ∧
      (Ev.handlerStart ∈ tpost →
        th1 = none ∧ s1.executionWasAborted = false) := by
  obtain ⟨s1, th1, hspc, hcase⟩ := runRequestO_elim (runRequest_eq cfg)
  obtain ⟨hctx1, hkind1, t1, ht1, hev1⟩ := spc_events hspc
  have ht1' : s1.trace = t1 := by simpa using ht1
  have hev1' : ∀ ev ∈ s1.trace, EvOk ChainKind.primary none ev := by
    rw [ht1']; exact hev1
  obtain ⟨ta, hta, hnmadA, hnodaA⟩ := spc_ainv hspc
  have hta' : s1.trace = ta := by simpa using hta
  have hnmad1 : Nmad s1.trace := by rw [hta']; exact hnmadA
  have hnoda1 : s1.executionWasAborted = false → NoDa s1.trace := by
    intro h; rw [hta']; exact hnodaA h
  refine ⟨s1, th1, ?_⟩
  rcases hcase with ⟨e, hth1, hhep⟩ | ⟨hth1, hsub⟩
  · -- primary chain threw e
    subst hth1
    obtain ⟨hprim, hcaught, hsub2⟩ := handleErrorPath_elim hhep
    rcases hsub2 with ⟨huoe, hres, htr, hopt, hect, herc, hprop⟩ |
      ⟨chainE, s2, th2, huoe, heq2, hres, htr, hopt, hect, herc, hprop2⟩
    · refine ⟨[], hspc, by simp [htr], hprim, ?_, hev1', hnmad1, hnoda1,
        by simp, by simp⟩
      intro e' he'
      injection he' with he'
      rw [← he']
      exact hcaught
    · obtain ⟨hctx2, hkind2, t2, ht2, hev2⟩ := spc_events heq2
      have ht2' : s2.trace = (s1.trace ++ [Ev.errorChainStarted]) ++ t2 := ht2
      have hev2' : ∀ ev ∈ t2, EvOk ChainKind.errorChain (some e) ev := hev2
      refine ⟨Ev.errorChainStarted :: t2, hspc, ?_, hprim, ?_, hev1', hnmad1,
        hnoda1, ?_, ?_⟩
      · rw [htr, ht2']; simp
      · intro e' he'
        injection he' with he'
        rw [← he']
        exact hcaught
      · intro ev hev
        rcases List.mem_cons.1 hev with rfl | hev
        · exact Or.inr (Or.inr ⟨e, hcaught, Or.inl rfl⟩)
        · exact Or.inr (Or.inr ⟨e, hcaught, Or.inr (hev2' ev hev)⟩)
      · intro hmem
        rcases List.mem_cons.1 hmem with hh | hh
        · exact absurd hh (by simp)
        · rcases hev2' _ hh with ⟨i, h'⟩ | h' | ⟨w, h'⟩ <;> simp at h'
  · -- primary chain returned normally
    subst hth1
    rcases hsub with ⟨hh, hr⟩ | ⟨hops, hh, hab, hr⟩ |
      ⟨hops, rs, e2, hh, hab, hrun, hhep⟩ | ⟨hops, rs, hh, hab, hrun, hr⟩
    · -- no handler
      obtain ⟨hc, hp, hpk, he, ho, hbr⟩ := hr ▸ finishSuccess_elim none s1
      rcases hbr with ⟨h1, h2, h3, h4⟩ | ⟨h1, h2, h3⟩
      · refine ⟨[Ev.notImplementedSent], hspc, h4, hpk,
          by simp, hev1', hnmad1, hnoda1, by simp, by simp⟩
      · refine ⟨[], hspc, by simpa using h3, hpk,
          by simp, hev1', hnmad1, hnoda1, by simp, by simp⟩
    · -- handler present but primary chain aborted: handler skipped
      obtain ⟨hc, hp, hpk, he, ho, hbr⟩ := hr ▸ finishSuccess_elim none s1
      rcases hbr with ⟨h1, h2, h3, h4⟩ | ⟨h1, h2, h3⟩
      · refine ⟨[Ev.notImplementedSent], hspc, h4, hpk,
          by simp, hev1', hnmad1, hnoda1, by simp, by simp⟩
      · refine ⟨[], hspc, by simpa using h3, hpk,
          by simp, hev1', hnmad1, hnoda1, by simp, by simp⟩
    · -- handler ran and threw e2
      obtain ⟨hprim, hcaught, hsub2⟩ := handleErrorPath_elim hhep
      have hstr : ({ addEv s1 Ev.handlerStart with res := rs } : St).trace =
          s1.trace ++ [Ev.handlerStart] := rfl
      rcases hsub2 with ⟨huoe, hres, htr, hopt, hect, herc, hprop⟩ |
        ⟨chainE, s2, th2, huoe, heq2, hres, htr, hopt, hect, herc, hprop2⟩
      · refine ⟨[Ev.handlerStart], hspc, by rw [htr, hstr], hprim, by simp,
          hev1', hnmad1, hnoda1, by simp, fun _ => ⟨rfl, hab⟩⟩
      · obtain ⟨hctx2, hkind2, t2, ht2, hev2⟩ := spc_events heq2
        have ht2' : s2.trace =
            ((s1.trace ++ [Ev.handlerStart]) ++ [Ev.errorChainStarted]) ++ t2 := ht2
        have hev2' : ∀ ev ∈ t2, EvOk ChainKind.errorChain (some e2) ev := hev2
        refine ⟨Ev.handlerStart :: Ev.errorChainStarted :: t2, hspc, ?_, hprim,
          by simp, hev1', hnmad1, hnoda1, ?_, fun _ => ⟨rfl, hab⟩⟩
        · rw [htr, ht2']; simp
        · intro ev hev
          rcases List.mem_cons.1 hev with rfl | hev
          · exact Or.inl rfl
          rcases List.mem_cons.1 hev with rfl | hev
          · exact Or.inr (Or.inr ⟨e2, hcaught, Or.inl rfl⟩)
          · exact Or.inr (Or.inr ⟨e2, hcaught, Or.inr (hev2' ev hev)⟩)
    · -- handler ran and returned
      obtain ⟨hc, hp, hpk, he, ho, hbr⟩ :=
        hr ▸ finishSuccess_elim none { addEv s1 Ev.handlerStart with res := rs }
      have hstr : ({ addEv s1 Ev.handlerStart with res := rs } : St).trace =
          s1.trace ++ [Ev.handlerStart] := rfl
      rcases hbr with ⟨h1, h2, h3, h4⟩ | ⟨h1, h2, h3⟩
      · refine ⟨[Ev.handlerStart, Ev.notImplementedSent], hspc, ?_,
          hpk, by simp, hev1', hnmad1, hnoda1, ?_,
          fun _ => ⟨rfl, hab⟩⟩
        · rw [h4, hstr]; simp
        · intro ev hev
          rcases List.mem_cons.1 hev with rfl | hev
          · exact Or.inl rfl
          · simp only [List.mem_singleton] at hev
            subst hev
            exact Or.inr (Or.inl rfl)
      · refine ⟨[Ev.handlerStart], hspc, ?_, hpk, by simp,
          hev1', hnmad1, hnoda1, ?_, fun _ => ⟨rfl, hab⟩⟩
        · rw [h3, hstr]
        · intro ev hev
          simp only [List.mem_singleton] at hev
          subst hev
          exact Or.inl rfl

theorem evOk_mwStart {k : ChainKind} {err : Option Nat} {k' : ChainKind}
    {i : Nat} {e : Option Nat} (h : EvOk k err (Ev.mwStart k' i e)) :
    k' = k ∧ e = err := by
  rcases h with ⟨j, h'⟩ | h' | ⟨w, h'⟩
  · injection h' with h1 h2 h3
    exact ⟨h1, h3⟩
  · exact absurd h' (by simp)
  · exact absurd h' (by simp)

theorem evOk_da {k : ChainKind} {err : Option Nat} {k' : ChainKind}
    (h : EvOk k err (Ev.doneAborted k')) : k' = k := by
  rcases h with ⟨j, h'⟩ | h' | ⟨w, h'⟩
  · exact absurd h' (by simp)
  · simp only [Ev.doneAborted.injEq] at h'
    exact h'
  · exact absurd h' (by simp)

theorem evOk_not_handlerStart {k : ChainKind} {err : Option Nat}
    (h : EvOk k err Ev.handlerStart) : False := by
  rcases h with ⟨j, h'⟩ | h' | ⟨w, h'⟩ <;> exact absurd h' (by simp)

theorem evOk_not_ecs {k : ChainKind} {err : Option Nat}
    (h : EvOk k err Ev.errorChainStarted) : False := by
  rcases h with ⟨j, h'⟩ | h' | ⟨w, h'⟩ <;> exact absurd h' (by simp)

/-- A `doneAborted .primary` event can only come from the primary run's
segment. -/
theorem da_primary_in_primary {cfg : Config} {s1 : St} {tpost : List Ev}
    (htr : (runRequest cfg).trace = s1.trace ++ tpost)
    (htpost : ∀ ev ∈ tpost, ev = Ev.handlerStart ∨ ev = Ev.notImplementedSent ∨
      (∃ e, (runRequest cfg).caughtError = some e ∧
        (ev = Ev.errorChainStarted ∨ EvOk ChainKind.errorChain (some e) ev)))
    (hda : Ev.doneAborted ChainKind.primary ∈ (runRequest cfg).trace) :
    Ev.doneAborted ChainKind.primary ∈ s1.trace := by
  rw [htr] at hda
  rcases List.mem_append.1 hda with h | h
  · exact h
  · rcases htpost _ h with h' | h' | ⟨e, hce, h' | h'⟩
    · exact absurd h' (by simp)
    · exact absurd h' (by simp)
    · exact absurd h' (by simp)
    · exact absurd (evOk_da h') (by simp)

/-- Claim C1: for every request handled by a handler built with
`withMiddleware`, if a primary-chain middleware's `done()` call takes effect
(a `doneAborted .primary` event is recorded), then no primary-chain
middleware is invoked after that point, the terminal handler is never
invoked, and — since no failure occurred (`caughtError = none`) — the
`useOnError` chain is never run. -/
theorem c1_done_aborts (cfg : Config)
    (hda : Ev.doneAborted ChainKind.primary ∈ (runRequest cfg).trace) :
    Ev.handlerStart ∉ (runRequest cfg).trace ∧
    (∀ u1 u2, (runRequest cfg).trace =
        u1 ++ Ev.doneAborted ChainKind.primary :: u2 →
      ∀ i e, Ev.mwStart ChainKind.primary i e ∉ u2) ∧
    ((runRequest cfg).caughtError = none →
      Ev.errorChainStarted ∉ (runRequest cfg).trace ∧
      ∀ i e, Ev.mwStart ChainKind.errorChain i e ∉ (runRequest cfg).trace) := by
  obtain ⟨s1, th1, tpost, hspc, htr, hpk, hcaught, hev1, hnmad, hnoda, htpost,
    hhs⟩ := request_shape cfg
  have hdaP : Ev.doneAborted ChainKind.primary ∈ s1.trace :=
    da_primary_in_primary htr htpost hda
  have hab : s1.executionWasAborted = true := by
    by_contra hab
    have hab' : s1.executionWasAborted = false := by
      revert hab; cases s1.executionWasAborted <;> simp
    exact absurd hdaP (hnoda hab' ChainKind.primary)
  refine ⟨?_, ?_, ?_⟩
  · intro hmem
    rw [htr] at hmem
    rcases List.mem_append.1 hmem with h | h
    · exact evOk_not_handlerStart (hev1 _ h)
    · rw [(hhs h).2] at hab
      exact absurd hab (by simp)
  · intro u1 u2 hsplit i e hmem
    rw [htr] at hsplit
    rcases split_of_append_eq tpost hsplit with ⟨w, hw1, hw2⟩ | ⟨w, hw1, hw2⟩
    · subst hw2
      rcases List.mem_append.1 hmem with h | h
      · exact hnmad u1 ChainKind.primary w hw1 ChainKind.primary i e h
      · rcases htpost _ h with h' | h' | ⟨e', hce, h' | h'⟩
        · exact absurd h' (by simp)
        · exact absurd h' (by simp)
        · exact absurd h' (by simp)
        · exact absurd (evOk_mwStart h').1 (by simp)
    · have : Ev.doneAborted ChainKind.primary ∈ tpost := by
        rw [hw1]; simp
      rcases htpost _ this with h' | h' | ⟨e', hce, h' | h'⟩
      · exact absurd h' (by simp)
      · exact absurd h' (by simp)
      · exact absurd h' (by simp)
      · exact absurd (evOk_da h') (by simp)
  · intro hcnone
    constructor
    · intro hmem
      rw [htr] at hmem
      rcases List.mem_append.1 hmem with h | h
      · exact evOk_not_ecs (hev1 _ h)
      · rcases htpost _ h with h' | h' | ⟨e', hce, -⟩
        · exact absurd h' (by simp)
        · exact absurd h' (by simp)
        · rw [hcnone] at hce; exact absurd hce (by simp)
    · intro i e hmem
      rw [htr] at hmem
      rcases List.mem_append.1 hmem with h | h
      · exact absurd (evOk_mwStart (hev1 _ h)).1 (by simp)
      · rcases htpost _ h with h' | h' | ⟨e', hce, -⟩
        · exact absurd h' (by simp)
        · exact absurd h' (by simp)
        · rw [hcnone] at hce; exact absurd hce (by simp)

/-- Witness for C1 at a concrete configuration: one middleware calling
`done()` followed by another middleware and a terminal handler. -/
theorem c1_done_aborts_witness :
    (Ev.doneAborted ChainKind.primary ∈
      (runRequest ⟨some [HOp.endRes],
        [Entry.mw [MwOp.done], Entry.mw [MwOp.setStatus 201]],
        some [Entry.mw []], none⟩).trace) ∧
    (Ev.handlerStart ∉
      (runRequest ⟨some [HOp.endRes],
        [Entry.mw [MwOp.done], Entry.mw [MwOp.setStatus 201]],
        some [Entry.mw []], none⟩).trace ∧
    (∀ u1 u2, (runRequest ⟨some [HOp.endRes],
        [Entry.mw [MwOp.done], Entry.mw [MwOp.setStatus 201]],
        some [Entry.mw []], none⟩).trace =
        u1 ++ Ev.doneAborted ChainKind.primary :: u2 →
      ∀ i e, Ev.mwStart ChainKind.primary i e ∉ u2) ∧
    ((runRequest ⟨some [HOp.endRes],
        [Entry.mw [MwOp.done], Entry.mw [MwOp.setStatus 201]],
        some [Entry.mw []], none⟩).caughtError = none →
      Ev.errorChainStarted ∉ (runRequest ⟨some [HOp.endRes],
        [Entry.mw [MwOp.done], Entry.mw [MwOp.setStatus 201]],
        some [Entry.mw []], none⟩).trace ∧
      ∀ i e, Ev.mwStart ChainKind.errorChain i e ∉
        (runRequest ⟨some [HOp.endRes],
          [Entry.mw [MwOp.done], Entry.mw [MwOp.setStatus 201]],
          some [Entry.mw []], none⟩).trace)) :=
  ⟨by decide, c1_done_aborts _ (by decide)⟩

/-- All events of the primary run are primary-tagged with error snapshot
`none`. -/
theorem primary_events {cfg : Config} {s1 : St} {th1 : Option Nat}
    (hspc : startPullingChain ChainKind.primary cfg.use (initSt cfg) =
      some (s1, th1)) :
    ∀ ev ∈ s1.trace, EvOk ChainKind.primary none ev := by
  obtain ⟨-, -, t1, ht1, hev1⟩ := spc_events hspc
  have ht1' : s1.trace = t1 := by simpa using ht1
  rw [ht1']
  exact hev1

/-- Claim C2: if a primary-chain middleware throws and `useOnError` was
supplied, the terminal handler never executes, `context.runtime.error` is
undefined at every primary-chain middleware invocation, and equals the
thrown value at every error-chain middleware invocation. -/
theorem c2_error_visibility (cfg : Config) (e : Nat)
    (hth : (runRequest cfg).primaryChainThrown = some e)
    (_huoe : cfg.useOnError ≠ none) :
    Ev.handlerStart ∉ (runRequest cfg).trace ∧
    (∀ i err, Ev.mwStart ChainKind.primary i err ∈ (runRequest cfg).trace →
      err = none) ∧
    (∀ i err, Ev.mwStart ChainKind.errorChain i err ∈ (runRequest cfg).trace →
      err = some e) := by
  obtain ⟨s1, th1, tpost, hspc, htr, hpk, hcaught, hev1, hnmad, hnoda, htpost,
    hhs⟩ := request_shape cfg
  have hth1 : th1 = some e := by rw [← hpk]; exact hth
  have hce : (runRequest cfg).caughtError = some e := hcaught e hth1
  refine ⟨?_, ?_, ?_⟩
  · intro hmem
    rw [htr] at hmem
    rcases List.mem_append.1 hmem with h | h
    · exact evOk_not_handlerStart (hev1 _ h)
    · rw [(hhs h).1] at hth1
      exact absurd hth1 (by simp)
  · intro i err hmem
    rw [htr] at hmem
    rcases List.mem_append.1 hmem with h | h
    · exact (evOk_mwStart (hev1 _ h)).2
    · rcases htpost _ h with h' | h' | ⟨e', hce', h' | h'⟩
      · exact absurd h' (by simp)
      · exact absurd h' (by simp)
      · exact absurd h' (by simp)
      · exact absurd (evOk_mwStart h').1 (by simp)
  · intro i err hmem
    rw [htr] at hmem
    rcases List.mem_append.1 hmem with h | h
    · exact absurd (evOk_mwStart (hev1 _ h)).1 (by simp)
    · rcases htpost _ h with h' | h' | ⟨e', hce', h' | h'⟩
      · exact absurd h' (by simp)
      · exact absurd h' (by simp)
      · exact absurd h' (by simp)
      · have he' : e' = e := by
          rw [hce] at hce'
          injection hce' with hce'
          exact hce'.symm
        rw [← he']
        exact (evOk_mwStart h').2

/-- Witness for C2: a throwing primary middleware with a supplied (singleton)
error chain. -/
theorem c2_error_visibility_witness :
    ((runRequest ⟨some [HOp.endRes], [Entry.mw [MwOp.throwErr 7]],
        some [Entry.mw [MwOp.setStatus 500, MwOp.endRes]], none⟩).primaryChainThrown =
      some 7) ∧
    ((⟨some [HOp.endRes], [Entry.mw [MwOp.throwErr 7]],
        some [Entry.mw [MwOp.setStatus 500, MwOp.endRes]], none⟩ : Config).useOnError ≠
      none) ∧
    (Ev.handlerStart ∉ (runRequest ⟨some [HOp.endRes],
        [Entry.mw [MwOp.throwErr 7]],
        some [Entry.mw [MwOp.setStatus 500, MwOp.endRes]], none⟩).trace ∧
    (∀ i err, Ev.mwStart ChainKind.primary i err ∈
        (runRequest ⟨some [HOp.endRes], [Entry.mw [MwOp.throwErr 7]],
          some [Entry.mw [MwOp.setStatus 500, MwOp.endRes]], none⟩).trace →
      err = none) ∧
    (∀ i err, Ev.mwStart ChainKind.errorChain i err ∈
        (runRequest ⟨some [HOp.endRes], [Entry.mw [MwOp.throwErr 7]],
          some [Entry.mw [MwOp.setStatus 500, MwOp.endRes]], none⟩).trace →
      err = some 7)) :=
  ⟨by decide, by decide, c2_error_visibility _ 7 (by decide) (by decide)⟩

/-- Claim C3: if no `useOnError` was supplied and the primary chain or the
terminal handler throws, the identical thrown value propagates out of the
produced handler to the caller, and no error chain is attempted. -/
theorem c3_propagates_unchanged (cfg : Config) (e : Nat)
    (huoe : cfg.useOnError = none)
    (hc : (runRequest cfg).caughtError = some e) :
    (runRequest cfg).propagated = some e ∧
    Ev.errorChainStarted ∉ (runRequest cfg).trace ∧
    (∀ i err, Ev.mwStart ChainKind.errorChain i err ∉ (runRequest cfg).trace) := by
  obtain ⟨s1, th1, hspc, hcase⟩ := runRequestO_elim (runRequest_eq cfg)
  have hev1 := primary_events hspc
  have hnoPrim : Ev.errorChainStarted ∉ s1.trace ∧
      ∀ i err, Ev.mwStart ChainKind.errorChain i err ∉ s1.trace := by
    constructor
    · intro hmem; exact evOk_not_ecs (hev1 _ hmem)
    · intro i err hmem; exact absurd (evOk_mwStart (hev1 _ hmem)).1 (by simp)
  rcases hcase with ⟨e1, hth1, hhep⟩ | ⟨hth1, hsub⟩
  · obtain ⟨hprim, hcaught, hsub2⟩ := handleErrorPath_elim hhep
    rcases hsub2 with ⟨-, -, htrace, -, -, -, hprop⟩ |
      ⟨chainE, s2, th2, huoe2, -⟩
    · have he1 : e1 = e := by
        rw [hc] at hcaught
        injection hcaught with h'
        exact h'.symm
      subst he1
      refine ⟨hprop, ?_, ?_⟩
      · rw [htrace]; exact hnoPrim.1
      · intro i err; rw [htrace]; exact hnoPrim.2 i err
    · rw [huoe] at huoe2; exact absurd huoe2 (by simp)
  · rcases hsub with ⟨hh, hr⟩ | ⟨hops, hh, hab, hr⟩ |
      ⟨hops, rs, e2, hh, hab, hrun, hhep⟩ | ⟨hops, rs, hh, hab, hrun, hr⟩
    · obtain ⟨hcE, -⟩ := hr ▸ finishSuccess_elim none s1
      rw [hc] at hcE; exact absurd hcE (by simp)
    · obtain ⟨hcE, -⟩ := hr ▸ finishSuccess_elim none s1
      rw [hc] at hcE; exact absurd hcE (by simp)
    · obtain ⟨hprim, hcaught, hsub2⟩ := handleErrorPath_elim hhep
      rcases hsub2 with ⟨-, -, htrace, -, -, -, hprop⟩ |
        ⟨chainE, s2, th2, huoe2, -⟩
      · have he2 : e2 = e := by
          rw [hc] at hcaught
          injection hcaught with h'
          exact h'.symm
        subst he2
        have hstr : ({ addEv s1 Ev.handlerStart with res := rs } : St).trace =
            s1.trace ++ [Ev.handlerStart] := rfl
        refine ⟨hprop, ?_, ?_⟩
        · rw [htrace, hstr]
          intro hmem
          rcases List.mem_append.1 hmem with h | h
          · exact hnoPrim.1 h
          · simp at h
        · intro i err
          rw [htrace, hstr]
          intro hmem
          rcases List.mem_append.1 hmem with h | h
          · exact hnoPrim.2 i err h
          · simp at h
      · rw [huoe] at huoe2; exact absurd huoe2 (by simp)
    · obtain ⟨hcE, -⟩ := hr ▸ finishSuccess_elim none
        { addEv s1 Ev.handlerStart with res := rs }
      rw [hc] at hcE; exact absurd hcE (by simp)

/-- Witness for C3: a throwing middleware without `useOnError`; the value 7
reaches the caller unchanged. -/
theorem c3_propagates_unchanged_witness :
    ((⟨none, [Entry.mw [MwOp.throwErr 7]], none, none⟩ : Config).useOnError =
      none) ∧
    ((runRequest ⟨none, [Entry.mw [MwOp.throwErr 7]], none, none⟩).caughtError =
      some 7) ∧
    ((runRequest ⟨none, [Entry.mw [MwOp.throwErr 7]], none, none⟩).propagated =
      some 7 ∧
    Ev.errorChainStarted ∉
      (runRequest ⟨none, [Entry.mw [MwOp.throwErr 7]], none, none⟩).trace ∧
    (∀ i err, Ev.mwStart ChainKind.errorChain i err ∉
      (runRequest ⟨none, [Entry.mw [MwOp.throwErr 7]], none, none⟩).trace)) :=
  ⟨by decide, by decide, c3_propagates_unchanged _ 7 (by decide) (by decide)⟩

/-- Claim C4: if the error chain itself throws, that new failure (not the
original one) propagates out of the produced handler to the caller. -/
theorem c4_error_chain_failure_supersedes (cfg : Config) (e2 : Nat)
    (h : (runRequest cfg).errorChainThrown = some e2) :
    (runRequest cfg).propagated = some e2 := by
  obtain ⟨s1, th1, hspc, hcase⟩ := runRequestO_elim (runRequest_eq cfg)
  rcases hcase with ⟨e1, hth1, hhep⟩ | ⟨hth1, hsub⟩
  · obtain ⟨-, -, hsub2⟩ := handleErrorPath_elim hhep
    rcases hsub2 with ⟨-, -, -, -, hect, -, -⟩ |
      ⟨chainE, s2, th2, -, -, -, -, -, hect, -, hprop2⟩
    · rw [h] at hect; exact absurd hect (by simp)
    · rcases hprop2 with ⟨e2', hth2, hprop⟩ | ⟨hth2, -⟩
      · have : th2 = some e2 := by rw [← hect]; exact h
        rw [hth2] at this
        injection this with this
        rw [← this]
        exact hprop
      · rw [hth2] at hect
        rw [h] at hect
        exact absurd hect (by simp)
  · rcases hsub with ⟨hh, hr⟩ | ⟨hops, hh, hab, hr⟩ |
      ⟨hops, rs, e', hh, hab, hrun, hhep⟩ | ⟨hops, rs, hh, hab, hrun, hr⟩
    · obtain ⟨-, -, -, hect, -⟩ := hr ▸ finishSuccess_elim none s1
      rw [h] at hect; exact absurd hect (by simp)
    · obtain ⟨-, -, -, hect, -⟩ := hr ▸ finishSuccess_elim none s1
      rw [h] at hect; exact absurd hect (by simp)
    · obtain ⟨-, -, hsub2⟩ := handleErrorPath_elim hhep
      rcases hsub2 with ⟨-, -, -, -, hect, -, -⟩ |
        ⟨chainE, s2, th2, -, -, -, -, -, hect, -, hprop2⟩
      · rw [h] at hect; exact absurd hect (by simp)
      · rcases hprop2 with ⟨e2', hth2, hprop⟩ | ⟨hth2, -⟩
        · have : th2 = some e2 := by rw [← hect]; exact h
          rw [hth2] at this
          injection this with this
          rw [← this]
          exact hprop
        · rw [hth2] at hect
          rw [h] at hect
          exact absurd hect (by simp)
    · obtain ⟨-, -, -, hect, -⟩ := hr ▸ finishSuccess_elim none
        { addEv s1 Ev.handlerStart with res := rs }
      rw [h] at hect; exact absurd hect (by simp)

/-- Witness for C4: the primary chain throws 1, the error chain throws 2;
the caller receives 2. -/
theorem c4_error_chain_failure_supersedes_witness :
    ((runRequest ⟨none, [Entry.mw [MwOp.throwErr 1]],
        some [Entry.mw [MwOp.throwErr 2]], none⟩).errorChainThrown = some 2) ∧
    ((runRequest ⟨none, [Entry.mw [MwOp.throwErr 1]],
        some [Entry.mw [MwOp.throwErr 2]], none⟩).propagated = some 2) :=
  ⟨by decide, c4_error_chain_failure_supersedes _ 2 (by decide)⟩

/-- Claim C5: if a primary-chain failure diverts to a supplied error chain
and the error chain runs to completion without throwing and without the
response being finalized, the original failure propagates to the caller. -/
theorem c5_unresolved_propagates_original (cfg : Config) (e : Nat)
    (hc : (runRequest cfg).caughtError = some e)
    (hect : (runRequest cfg).errorChainThrown = none)
    (_hcomp : (runRequest cfg).errorRunCompleted = some true)
    (hfin : (runRequest cfg).res.writableEnded = false ∧
            (runRequest cfg).res.headersSent = false) :
    (runRequest cfg).propagated = some e := by
  obtain ⟨s1, th1, hspc, hcase⟩ := runRequestO_elim (runRequest_eq cfg)
  have main : ∀ (prim : Option Nat) (s : St) (e1 : Nat),
      handleErrorPath cfg prim s e1 = some (runRequest cfg) →
      (runRequest cfg).propagated = some e := by
    intro prim s e1 hhep
    obtain ⟨-, hcaught, hsub2⟩ := handleErrorPath_elim hhep
    have he1 : e1 = e := by
      rw [hc] at hcaught
      injection hcaught with h'
      exact h'.symm
    subst he1
    rcases hsub2 with ⟨-, -, -, -, -, herc, -⟩ |
      ⟨chainE, s2, th2, -, -, hres, -, -, hect2, herc, hprop2⟩
    · rw [herc] at _hcomp; exact absurd _hcomp (by simp)
    · rcases hprop2 with ⟨e2', hth2, -⟩ | ⟨hth2, hsub3⟩
      · rw [hth2] at hect2
        rw [hect2] at hect
        exact absurd hect (by simp)
      · rcases hsub3 with ⟨-, -, hprop⟩ | ⟨hsent, -⟩
        · exact hprop
        · rw [hres] at hfin
          rcases hsent with hs | hs
          · rw [hfin.1] at hs; exact absurd hs (by simp)
          · rw [hfin.2] at hs; exact absurd hs (by simp)
  rcases hcase with ⟨e1, hth1, hhep⟩ | ⟨hth1, hsub⟩
  · exact main _ _ _ hhep
  · rcases hsub with ⟨hh, hr⟩ | ⟨hops, hh, hab, hr⟩ |
      ⟨hops, rs, e', hh, hab, hrun, hhep⟩ | ⟨hops, rs, hh, hab, hrun, hr⟩
    · obtain ⟨hcE, -⟩ := hr ▸ finishSuccess_elim none s1
      rw [hc] at hcE; exact absurd hcE (by simp)
    · obtain ⟨hcE, -⟩ := hr ▸ finishSuccess_elim none s1
      rw [hc] at hcE; exact absurd hcE (by simp)
    · exact main _ _ _ hhep
    · obtain ⟨hcE, -⟩ := hr ▸ finishSuccess_elim none
        { addEv s1 Ev.handlerStart with res := rs }
      rw [hc] at hcE; exact absurd hcE (by simp)

/-- Witness for C5: primary throws 1, the (noop) error chain completes
without finalizing; the caller receives the original failure 1. -/
theorem c5_unresolved_propagates_original_witness :
    ((runRequest ⟨none, [Entry.mw [MwOp.throwErr 1]],
        some [Entry.mw []], none⟩).caughtError = some 1) ∧
    ((runRequest ⟨none, [Entry.mw [MwOp.throwErr 1]],
        some [Entry.mw []], none⟩).errorChainThrown = none) ∧
    ((runRequest ⟨none, [Entry.mw [MwOp.throwErr 1]],
        some [Entry.mw []], none⟩).errorRunCompleted = some true) ∧
    ((runRequest ⟨none, [Entry.mw [MwOp.throwErr 1]],
        some [Entry.mw []], none⟩).res.writableEnded = false ∧
     (runRequest ⟨none, [Entry.mw [MwOp.throwErr 1]],
        some [Entry.mw []], none⟩).res.headersSent = false) ∧
    ((runRequest ⟨none, [Entry.mw [MwOp.throwErr 1]],
        some [Entry.mw []], none⟩).propagated = some 1) :=
  ⟨by decide, by decide, by decide, by decide,
    c5_unresolved_propagates_original _ 1 (by decide) (by decide) (by decide)
      (by decide)⟩

theorem evOk_not_nis {k : ChainKind} {err : Option Nat}
    (h : EvOk k err Ev.notImplementedSent) : False := by
  rcases h with ⟨j, h'⟩ | h' | ⟨w, h'⟩ <;> exact absurd h' (by simp)

/-- Counterexample to claim C6 as stated: the primary chain throws, nothing
finalizes the response, and `useOnError` is absent — yet no default
not-implemented response is sent; the failure propagates and the response is
left completely unfinalized. -/
theorem c6_counterexample :
    ((⟨none, [Entry.mw [MwOp.throwErr 0]], none, none⟩ : Config).useOnError =
      none) ∧
    (runRequest ⟨none, [Entry.mw [MwOp.throwErr 0]], none,
      none⟩).res.writableEnded = false ∧
    (runRequest ⟨none, [Entry.mw [MwOp.throwErr 0]], none,
      none⟩).res.headersSent = false ∧
    Ev.notImplementedSent ∉
      (runRequest ⟨none, [Entry.mw [MwOp.throwErr 0]], none, none⟩).trace ∧
    (runRequest ⟨none, [Entry.mw [MwOp.throwErr 0]], none,
      none⟩).res.statusCode ≠ 501 ∧
    (runRequest ⟨none, [Entry.mw [MwOp.throwErr 0]], none,
      none⟩).propagated = some 0 := by
  decide

/-- Claim C6 as amended: on the success path (no failure caught) the
response is always finalized — the default not-implemented response is the
one sent when nothing else finalized it; on the failure path no
not-implemented response is ever sent, and if the response stays unfinalized
the failure propagates to the caller instead. -/
theorem c6_amended_fallback (cfg : Config) :
    ((runRequest cfg).caughtError = none →
      (runRequest cfg).res.finalized = true) ∧
    ((runRequest cfg).caughtError = none →
      Ev.notImplementedSent ∈ (runRequest cfg).trace →
      (runRequest cfg).res = ⟨501, true, true⟩) ∧
    (∀ e, (runRequest cfg).caughtError = some e →
      Ev.notImplementedSent ∉ (runRequest cfg).trace) ∧
    (∀ e, (runRequest cfg).caughtError = some e →
      (runRequest cfg).res.writableEnded = false →
      (runRequest cfg).res.headersSent = false →
      ∃ e', (runRequest cfg).propagated = some e') := by
  obtain ⟨s1, th1, hspc, hcase⟩ := runRequestO_elim (runRequest_eq cfg)
  have hev1 := primary_events hspc
  have hnisPrim : Ev.notImplementedSent ∉ s1.trace := fun hmem =>
    evOk_not_nis (hev1 _ hmem)
  -- generic treatment of the error path entered with base state `s` whose
  -- trace extends the primary segment
  have errCase : ∀ (prim : Option Nat) (s : St) (e1 : Nat),
      handleErrorPath cfg prim s e1 = some (runRequest cfg) →
      (Ev.notImplementedSent ∉ s.trace) →
      (runRequest cfg).caughtError = some e1 ∧
      Ev.notImplementedSent ∉ (runRequest cfg).trace ∧
      ((runRequest cfg).res.writableEnded = false →
       (runRequest cfg).res.headersSent = false →
       ∃ e', (runRequest cfg).propagated = some e') := by
    intro prim s e1 hhep hnisS
    obtain ⟨-, hcaught, hsub2⟩ := handleErrorPath_elim hhep
    rcases hsub2 with ⟨-, hres, htrace, -, -, -, hprop⟩ |
      ⟨chainE, s2, th2, -, heq2, hres, htrace, -, -, -, hprop2⟩
    · exact ⟨hcaught, by rw [htrace]; exact hnisS, fun _ _ => ⟨e1, hprop⟩⟩
    · obtain ⟨-, -, t2, ht2, hev2⟩ := spc_events heq2
      have ht2' : s2.trace = (s.trace ++ [Ev.errorChainStarted]) ++ t2 := ht2
      refine ⟨hcaught, ?_, ?_⟩
      · rw [htrace, ht2']
        intro hmem
        rcases List.mem_append.1 hmem with h | h
        · rcases List.mem_append.1 h with h | h
          · exact hnisS h
          · simp at h
        · exact evOk_not_nis (hev2 _ h)
      · intro hwe hhs
        rcases hprop2 with ⟨e2', -, hprop⟩ | ⟨-, hsub3⟩
        · exact ⟨e2', hprop⟩
        · rcases hsub3 with ⟨-, -, hprop⟩ | ⟨hsent, -⟩
          · exact ⟨e1, hprop⟩
          · rw [hres] at hwe hhs
            rcases hsent with hs' | hs'
            · rw [hwe] at hs'; exact absurd hs' (by simp)
            · rw [hhs] at hs'; exact absurd hs' (by simp)
  -- generic treatment of the success path finishing from state `s`
  have finCase : ∀ (s : St), runRequest cfg = finishSuccess none s →
      (Ev.notImplementedSent ∉ s.trace) →
      (runRequest cfg).caughtError = none ∧
      (runRequest cfg).res.finalized = true ∧
      (Ev.notImplementedSent ∈ (runRequest cfg).trace →
        (runRequest cfg).res = ⟨501, true, true⟩) := by
    intro s hr hnisS
    obtain ⟨hcE, -, -, -, -, hbr⟩ := hr ▸ finishSuccess_elim none s
    rcases hbr with ⟨h1, h2, h3, h4⟩ | ⟨h1, h2, h3⟩
    · exact ⟨hcE, by rw [h3]; rfl, fun _ => by rw [h3]; rfl⟩
    · refine ⟨hcE, ?_, ?_⟩
      · rw [h2]
        rcases h1 with h1 | h1 <;> simp [ResSt.finalized, h1]
      · intro hmem
        rw [h3] at hmem
        exact absurd hmem hnisS
  rcases hcase with ⟨e1, hth1, hhep⟩ | ⟨hth1, hsub⟩
  · obtain ⟨hcaught, hnis, hprop⟩ := errCase _ _ _ hhep hnisPrim
    refine ⟨?_, ?_, ?_, ?_⟩
    · intro hc; rw [hcaught] at hc; exact absurd hc (by simp)
    · intro hc; rw [hcaught] at hc; exact absurd hc (by simp)
    · intro e hc; exact hnis
    · intro e hc hwe hhs; exact hprop hwe hhs
  · rcases hsub with ⟨hh, hr⟩ | ⟨hops, hh, hab, hr⟩ |
      ⟨hops, rs, e2, hh, hab, hrun, hhep⟩ | ⟨hops, rs, hh, hab, hrun, hr⟩
    · obtain ⟨hcE, hfin, hnisR⟩ := finCase _ hr hnisPrim
      refine ⟨fun _ => hfin, fun _ => hnisR, ?_, ?_⟩
      · intro e hc; rw [hcE] at hc; exact absurd hc (by simp)
      · intro e hc; rw [hcE] at hc; exact absurd hc (by simp)
    · obtain ⟨hcE, hfin, hnisR⟩ := finCase _ hr hnisPrim
      refine ⟨fun _ => hfin, fun _ => hnisR, ?_, ?_⟩
      · intro e hc; rw [hcE] at hc; exact absurd hc (by simp)
      · intro e hc; rw [hcE] at hc; exact absurd hc (by simp)
    · have hnisS : Ev.notImplementedSent ∉
          ({ addEv s1 Ev.handlerStart with res := rs } : St).trace := by
        have hstr : ({ addEv s1 Ev.handlerStart with res := rs } : St).trace =
            s1.trace ++ [Ev.handlerStart] := rfl
        rw [hstr]
        intro hmem
        rcases List.mem_append.1 hmem with h | h
        · exact hnisPrim h
        · simp at h
      obtain ⟨hcaught, hnis, hprop⟩ := errCase _ _ _ hhep hnisS
      refine ⟨?_, ?_, ?_, ?_⟩
      · intro hc; rw [hcaught] at hc; exact absurd hc (by simp)
      · intro hc; rw [hcaught] at hc; exact absurd hc (by simp)
      · intro e hc; exact hnis
      · intro e hc hwe hhs; exact hprop hwe hhs
    · have hnisS : Ev.notImplementedSent ∉
          ({ addEv s1 Ev.handlerStart with res := rs } : St).trace := by
        have hstr : ({ addEv s1 Ev.handlerStart with res := rs } : St).trace =
            s1.trace ++ [Ev.handlerStart] := rfl
        rw [hstr]
        intro hmem
        rcases List.mem_append.1 hmem with h | h
        · exact hnisPrim h
        · simp at h
      obtain ⟨hcE, hfin, hnisR⟩ := finCase _ hr hnisS
      refine ⟨fun _ => hfin, fun _ => hnisR, ?_, ?_⟩
      · intro e hc; rw [hcE] at hc; exact absurd hc (by simp)
      · intro e hc; rw [hcE] at hc; exact absurd hc (by simp)

/-- Witness for the amended C6, applied at two concrete configurations: an
empty chain (fallback fires, response is the 501), and a throwing chain with
no error chain (no fallback; the failure propagates). -/
theorem c6_amended_fallback_witness :
    ((runRequest ⟨none, [], none, none⟩).res.finalized = true ∧
     (runRequest ⟨none, [], none, none⟩).res = ⟨501, true, true⟩) ∧
    (Ev.notImplementedSent ∉
      (runRequest ⟨none, [Entry.mw [MwOp.throwErr 0]], none, none⟩).trace ∧
     ∃ e', (runRequest ⟨none, [Entry.mw [MwOp.throwErr 0]], none,
       none⟩).propagated = some e') :=
  ⟨⟨(c6_amended_fallback ⟨none, [], none, none⟩).1 (by decide),
    (c6_amended_fallback ⟨none, [], none, none⟩).2.1 (by decide) (by decide)⟩,
   ⟨(c6_amended_fallback ⟨none, [Entry.mw [MwOp.throwErr 0]], none, none⟩).2.2.1
      0 (by decide),
    (c6_amended_fallback ⟨none, [Entry.mw [MwOp.throwErr 0]], none, none⟩).2.2.2
      0 (by decide) (by decide) (by decide)⟩⟩

/-- Claim C7: when `callDoneOnEnd` is true the installed wrapper makes the
first `res.end` call (before the run completed or aborted) trigger
`runtime.done()`, aborting the run; a later call (response already sent)
does not; when `callDoneOnEnd` is false `res.end` is not wrapped — it only
finalizes the response and never triggers `done()` — and a chain whose
middleware never call `done()` and never throw runs to completion. -/
theorem c7_callDoneOnEnd (kind : ChainKind) (chain : List Entry) (s : St) :
    (s.wrapInstalled = true →
      s.res.writableEnded = false → s.res.headersSent = false →
      s.executionWasAborted = false → s.executionCompleted = false →
      (resEnd s).executionWasAborted = true ∧
      (resEnd s).res = rawEnd s.res ∧
      (resEnd s).trace = s.trace ++ [Ev.doneAborted s.chainKind]) ∧
    (s.wrapInstalled = true → s.res.writableEnded = true →
      resEnd s = { s with res := rawEnd s.res }) ∧
    (s.wrapInstalled = false →
      resEnd s = { s with res := rawEnd s.res }) ∧
    (s.optCallDoneOnEnd = false → chain.all tameEntry = true →
      ∃ s', startPullingChain kind chain s = some (s', none) ∧
        s'.executionCompleted = true ∧ s'.executionWasAborted = false) := by
  refine ⟨?_, ?_, ?_, ?_⟩
  · intro hw hwe hhs hab hcomp
    simp only [resEnd, hw, hwe, hhs, hab, hcomp]
    simp [runtimeDone, hab, hcomp]
  · intro hw hwe
    simp [resEnd, hw, hwe]
  · intro hw
    simp [resEnd, hw]
  · intro hopt htame
    have hw : (runInit kind s).wrapInstalled = false := by
      simp [runInit, hopt]
    have ht := run_total (chainWeight chain + 2)
      (Call.pull chain (runInit kind s)) (by simp only [callWeight]; omega)
    rcases hrec : run (chainWeight chain + 2)
        (Call.pull chain (runInit kind s)) with _ | o
    · rw [hrec] at ht; simp at ht
    · obtain ⟨hth, hab, hcomp⟩ :=
        (run_tame (chainWeight chain + 2)).1 chain (runInit kind s) o hrec hw
          htame rfl
      refine ⟨o.st, ?_, hcomp, hab⟩
      unfold startPullingChain
      rw [hrec]
      simp [hth]

/-- Witness for C7 at concrete states and a concrete tame chain. -/
theorem c7_callDoneOnEnd_witness :
    ((resEnd ⟨⟨200, false, false⟩, false, false, false, 0, ChainKind.primary,
        true, true, none, []⟩).executionWasAborted = true ∧
     (resEnd ⟨⟨200, false, false⟩, false, false, false, 0, ChainKind.primary,
        true, true, none, []⟩).res = rawEnd ⟨200, false, false⟩ ∧
     (resEnd ⟨⟨200, false, false⟩, false, false, false, 0, ChainKind.primary,
        true, true, none, []⟩).trace =
       [] ++ [Ev.doneAborted ChainKind.primary]) ∧
    (resEnd ⟨⟨200, false, true⟩, false, false, false, 0, ChainKind.primary,
        true, true, none, []⟩ =
      { (⟨⟨200, false, true⟩, false, false, false, 0, ChainKind.primary,
          true, true, none, []⟩ : St) with res := rawEnd ⟨200, false, true⟩ }) ∧
    (resEnd ⟨⟨200, false, false⟩, false, false, false, 0, ChainKind.primary,
        false, false, none, []⟩ =
      { (⟨⟨200, false, false⟩, false, false, false, 0, ChainKind.primary,
          false, false, none, []⟩ : St) with res := rawEnd ⟨200, false, false⟩ }) ∧
    (∃ s', startPullingChain ChainKind.primary [Entry.mw [MwOp.endRes]]
        ⟨⟨200, false, false⟩, false, false, false, 0, ChainKind.primary,
          false, false, none, []⟩ = some (s', none) ∧
      s'.executionCompleted = true ∧ s'.executionWasAborted = false) :=
  ⟨(c7_callDoneOnEnd ChainKind.primary [] _).1 (by decide) (by decide)
      (by decide) (by decide) (by decide),
   (c7_callDoneOnEnd ChainKind.primary [] _).2.1 (by decide) (by decide),
   (c7_callDoneOnEnd ChainKind.primary [] _).2.2.1 (by decide),
   (c7_callDoneOnEnd ChainKind.primary [Entry.mw [MwOp.endRes]] _).2.2.2
      (by decide) (by decide)⟩

/-- Claim C8: calling `done()` a second time within the same run is a no-op
(no flag, response, or abort-state change — only a diagnostic warning), as is
calling `done()` or `next()` after the run has completed or aborted; none of
these raise an exception — the middleware body simply continues. -/
theorem c8_done_idempotent :
    (∀ s : St, s.executionCompleted = false → s.executionWasAborted = false →
      (runtimeDone (runtimeDone s)).executionWasAborted =
        (runtimeDone s).executionWasAborted ∧
      (runtimeDone (runtimeDone s)).executionCompleted =
        (runtimeDone s).executionCompleted ∧
      (runtimeDone (runtimeDone s)).res = (runtimeDone s).res ∧
      (runtimeDone (runtimeDone s)).trace =
        (runtimeDone s).trace ++ [Ev.warn Warn.doneAfterAbort]) ∧
    (∀ s : St, s.executionCompleted = true →
      runtimeDone s = addEv s (Ev.warn Warn.doneAfterComplete)) ∧
    (∀ s : St, s.executionCompleted = false → s.executionWasAborted = true →
      runtimeDone s = addEv s (Ev.warn Warn.doneAfterAbort)) ∧
    (∀ (n : Nat) (rest : List MwOp) (cwp : Bool) (chain : List Entry) (s : St),
      s.executionCompleted = true →
      run (n + 1) (Call.mws (MwOp.next :: rest) cwp chain s) =
        run n (Call.mws rest cwp chain
          (addEv s (Ev.warn Warn.nextAfterComplete)))) ∧
    (∀ (n : Nat) (rest : List MwOp) (cwp : Bool) (chain : List Entry) (s : St),
      s.executionCompleted = false → s.executionWasAborted = true →
      run (n + 1) (Call.mws (MwOp.next :: rest) cwp chain s) =
        run n (Call.mws rest cwp chain
          (addEv s (Ev.warn Warn.nextAfterAbort)))) := by
  refine ⟨?_, ?_, ?_, ?_, ?_⟩
  · intro s hcomp hab
    simp only [runtimeDone, hcomp, hab]
    simp [addEv]
  · intro s hcomp
    simp [runtimeDone, hcomp]
  · intro s hcomp hab
    simp [runtimeDone, hcomp, hab]
  · intro n rest cwp chain s hcomp
    simp [run, hcomp]
  · intro n rest cwp chain s hcomp hab
    simp [run, hcomp, hab]

/-- Witness for C8 at a concrete running state and a concrete completed
state. -/
theorem c8_done_idempotent_witness :
    ((runtimeDone (runtimeDone ⟨⟨200, false, false⟩, false, false, false, 0,
        ChainKind.primary, true, true, none, []⟩)).executionWasAborted =
      (runtimeDone ⟨⟨200, false, false⟩, false, false, false, 0,
        ChainKind.primary, true, true, none, []⟩).executionWasAborted ∧
     (runtimeDone (runtimeDone ⟨⟨200, false, false⟩, false, false, false, 0,
        ChainKind.primary, true, true, none, []⟩)).executionCompleted =
      (runtimeDone ⟨⟨200, false, false⟩, false, false, false, 0,
        ChainKind.primary, true, true, none, []⟩).executionCompleted ∧
     (runtimeDone (runtimeDone ⟨⟨200, false, false⟩, false, false, false, 0,
        ChainKind.primary, true, true, none, []⟩)).res =
      (runtimeDone ⟨⟨200, false, false⟩, false, false, false, 0,
        ChainKind.primary, true, true, none, []⟩).res ∧
     (runtimeDone (runtimeDone ⟨⟨200, false, false⟩, false, false, false, 0,
        ChainKind.primary, true, true, none, []⟩)).trace =
      (runtimeDone ⟨⟨200, false, false⟩, false, false, false, 0,
        ChainKind.primary, true, true, none, []⟩).trace ++
        [Ev.warn Warn.doneAfterAbort]) ∧
    (runtimeDone ⟨⟨200, false, false⟩, false, true, false, 0,
        ChainKind.primary, true, true, none, []⟩ =
      addEv ⟨⟨200, false, false⟩, false, true, false, 0, ChainKind.primary,
        true, true, none, []⟩ (Ev.warn Warn.doneAfterComplete)) ∧
    (run 3 (Call.mws [MwOp.next] false []
        ⟨⟨200, false, false⟩, false, true, false, 0, ChainKind.primary,
          true, true, none, []⟩) =
      run 2 (Call.mws [] false []
        (addEv ⟨⟨200, false, false⟩, false, true, false, 0, ChainKind.primary,
          true, true, none, []⟩ (Ev.warn Warn.nextAfterComplete)))) :=
  ⟨c8_done_idempotent.1 _ (by decide) (by decide),
   c8_done_idempotent.2.1 _ (by decide),
   c8_done_idempotent.2.2.2.1 2 [] false [] _ (by decide)⟩

/-- Counterexample to claim C9 as stated: the source never freezes
`context.options`; a middleware that assigns
`context.options.callDoneOnEnd = false` changes the shared options object —
the final value differs from the merged initial value (`true`). -/
theorem c9_counterexample :
    ((⟨none, [Entry.mw [MwOp.setCallDoneOnEnd false]], none,
        none⟩ : Config).suppliedCallDoneOnEnd.getD true = true) ∧
    (runRequest ⟨none, [Entry.mw [MwOp.setCallDoneOnEnd false]], none,
      none⟩).optCallDoneOnEnd = false := by
  decide

/-- Claim C9 as amended: `context.options` is not frozen — a middleware
assignment to `context.options.callDoneOnEnd` takes effect and persists on
the shared context for the rest of the request. -/
theorem c9_amended_options_mutable (b : Bool) (sup : Option Bool)
    (uoe : Option (List Entry)) :
    (runRequest ⟨none, [Entry.mw [MwOp.setCallDoneOnEnd b]], uoe,
      sup⟩).optCallDoneOnEnd = b := by
  rfl

/-- Witness for the amended C9. -/
theorem c9_amended_options_mutable_witness :
    (runRequest ⟨none, [Entry.mw [MwOp.setCallDoneOnEnd false]],
      some [Entry.nonFunction], some true⟩).optCallDoneOnEnd = false :=
  c9_amended_options_mutable false (some true) (some [Entry.nonFunction])

/-- The preset configuration bound by `middlewareFactory` (source lines
326-336). -/
structure FactoryDefaults where
  use : List Entry
  useOnError : Option (List Entry)
  callDoneOnEnd : Option Bool
deriving DecidableEq

/-- The per-call-site parameters of a factory-produced configurator (source
lines 337-356). -/
structure FactoryParams where
  handler : Option (List HOp)
  prependUse : Option (List Entry)
  appendUse : Option (List Entry)
  prependUseOnError : Option (List Entry)
  appendUseOnError : Option (List Entry)
  callDoneOnEnd : Option Bool
deriving DecidableEq

/-- `middlewareFactory` (source lines 326-373): the configurator prepends and
appends to the preset chains and shallow-merges options (call-site keys win);
`useOnError` is always passed as an array — the concatenation of
`prependUseOnError`, the preset `useOnError` (or `[]`), and
`appendUseOnError` — even when every part is empty. -/
def middlewareFactory (d : FactoryDefaults) (p : FactoryParams) : Config :=
  { handler := p.handler,
    use := (p.prependUse.getD []) ++ d.use ++ (p.appendUse.getD []),
    useOnError := some ((p.prependUseOnError.getD []) ++
      (d.useOnError.getD []) ++ (p.appendUseOnError.getD [])),
    suppliedCallDoneOnEnd :=
      match p.callDoneOnEnd with
      | some b => some b
      | none => d.callDoneOnEnd }

/-- With `useOnError` supplied (even as an empty array), a caught failure
always starts the error chain, and an unresolved failure propagates through
the unresolved-failure branch. -/
theorem uoe_supplied_error_path (cfg : Config)
    (huoe : cfg.useOnError ≠ none) :
    (∀ e, (runRequest cfg).caughtError = some e →
      Ev.errorChainStarted ∈ (runRequest cfg).trace) ∧
    (∀ e, (runRequest cfg).caughtError = some e →
      (runRequest cfg).errorChainThrown = none →
      (runRequest cfg).res.writableEnded = false →
      (runRequest cfg).res.headersSent = false →
      (runRequest cfg).propagated = some e) := by
  obtain ⟨s1, th1, hspc, hcase⟩ := runRequestO_elim (runRequest_eq cfg)
  have errCase : ∀ (prim : Option Nat) (s : St) (e1 : Nat),
      handleErrorPath cfg prim s e1 = some (runRequest cfg) →
      (runRequest cfg).caughtError = some e1 ∧
      Ev.errorChainStarted ∈ (runRequest cfg).trace ∧
      ((runRequest cfg).errorChainThrown = none →
       (runRequest cfg).res.writableEnded = false →
       (runRequest cfg).res.headersSent = false →
       (runRequest cfg).propagated = some e1) := by
    intro prim s e1 hhep
    obtain ⟨-, hcaught, hsub2⟩ := handleErrorPath_elim hhep
    rcases hsub2 with ⟨huoe2, -⟩ |
      ⟨chainE, s2, th2, -, heq2, hres, htrace, -, hect, -, hprop2⟩
    · exact absurd huoe2 huoe
    · obtain ⟨-, -, t2, ht2, -⟩ := spc_events heq2
      have ht2' : s2.trace = (s.trace ++ [Ev.errorChainStarted]) ++ t2 := ht2
      refine ⟨hcaught, ?_, ?_⟩
      · rw [htrace, ht2']
        simp
      · intro hectN hwe hhs
        rcases hprop2 with ⟨e2', hth2, -⟩ | ⟨hth2, hsub3⟩
        · rw [hth2] at hect
          rw [hect] at hectN
          exact absurd hectN (by simp)
        · rcases hsub3 with ⟨-, -, hprop⟩ | ⟨hsent, -⟩
          · exact hprop
          · rw [hres] at hwe hhs
            rcases hsent with hs' | hs'
            · rw [hwe] at hs'; exact absurd hs' (by simp)
            · rw [hhs] at hs'; exact absurd hs' (by simp)
  rcases hcase with ⟨e1, hth1, hhep⟩ | ⟨hth1, hsub⟩
  · obtain ⟨hcaught, hecs, hprop⟩ := errCase _ _ _ hhep
    constructor
    · intro e hc
      exact hecs
    · intro e hc hectN hwe hhs
      have he1 : e1 = e := by
        rw [hc] at hcaught
        injection hcaught with h'
        exact h'.symm
      subst he1
      exact hprop hectN hwe hhs
  · rcases hsub with ⟨hh, hr⟩ | ⟨hops, hh, hab, hr⟩ |
      ⟨hops, rs, e2, hh, hab, hrun, hhep⟩ | ⟨hops, rs, hh, hab, hrun, hr⟩
    · obtain ⟨hcE, -⟩ := hr ▸ finishSuccess_elim none s1
      exact ⟨fun e hc => absurd (hcE ▸ hc : (none : Option Nat) = some e)
        (by simp), fun e hc => absurd (hcE ▸ hc : (none : Option Nat) = some e)
        (by simp)⟩
    · obtain ⟨hcE, -⟩ := hr ▸ finishSuccess_elim none s1
      exact ⟨fun e hc => absurd (hcE ▸ hc : (none : Option Nat) = some e)
        (by simp), fun e hc => absurd (hcE ▸ hc : (none : Option Nat) = some e)
        (by simp)⟩
    · obtain ⟨hcaught, hecs, hprop⟩ := errCase _ _ _ hhep
      constructor
      · intro e hc
        exact hecs
      · intro e hc hectN hwe hhs
        have he2 : e2 = e := by
          rw [hc] at hcaught
          injection hcaught with h'
          exact h'.symm
        subst he2
        exact hprop hectN hwe hhs
    · obtain ⟨hcE, -⟩ := hr ▸ finishSuccess_elim none
        { addEv s1 Ev.handlerStart with res := rs }
      exact ⟨fun e hc => absurd (hcE ▸ hc : (none : Option Nat) = some e)
        (by simp), fun e hc => absurd (hcE ▸ hc : (none : Option Nat) = some e)
        (by simp)⟩

/-- Claim C10: a factory-produced handler always passes `useOnError` as an
array (the concatenation of the prepend, preset, and append parts, possibly
empty), so it never takes the immediate-propagation branch: a caught failure
always starts the (possibly empty) error chain, and if the response stays
unfinalized the original failure propagates through the unresolved-failure
branch. -/
theorem c10_factory_useOnError (d : FactoryDefaults) (p : FactoryParams) :
    (middlewareFactory d p).useOnError =
      some ((p.prependUseOnError.getD []) ++ (d.useOnError.getD []) ++
        (p.appendUseOnError.getD [])) ∧
    (∀ e, (runRequest (middlewareFactory d p)).caughtError = some e →
      Ev.errorChainStarted ∈ (runRequest (middlewareFactory d p)).trace) ∧
    (∀ e, (runRequest (middlewareFactory d p)).caughtError = some e →
      (runRequest (middlewareFactory d p)).errorChainThrown = none →
      (runRequest (middlewareFactory d p)).res.writableEnded = false →
      (runRequest (middlewareFactory d p)).res.headersSent = false →
      (runRequest (middlewareFactory d p)).propagated = some e) := by
  have huoe : (middlewareFactory d p).useOnError ≠ none := by
    simp [middlewareFactory]
  obtain ⟨h1, h2⟩ := uoe_supplied_error_path (middlewareFactory d p) huoe
  exact ⟨rfl, h1, h2⟩

/-- Witness for C10: a factory with a throwing default middleware and no
`useOnError` parts anywhere — the produced handler still runs the (empty)
error chain and propagates the original failure. -/
theorem c10_factory_useOnError_witness :
    ((middlewareFactory ⟨[Entry.mw [MwOp.throwErr 3]], none, none⟩
        ⟨none, none, none, none, none, none⟩).useOnError = some []) ∧
    ((runRequest (middlewareFactory ⟨[Entry.mw [MwOp.throwErr 3]], none, none⟩
        ⟨none, none, none, none, none, none⟩)).caughtError = some 3) ∧
    (Ev.errorChainStarted ∈ (runRequest (middlewareFactory
        ⟨[Entry.mw [MwOp.throwErr 3]], none, none⟩
        ⟨none, none, none, none, none, none⟩)).trace) ∧
    ((runRequest (middlewareFactory ⟨[Entry.mw [MwOp.throwErr 3]], none, none⟩
        ⟨none, none, none, none, none, none⟩)).propagated = some 3) :=
  ⟨by decide, by decide,
   (c10_factory_useOnError ⟨[Entry.mw [MwOp.throwErr 3]], none, none⟩
      ⟨none, none, none, none, none, none⟩).2.1 3 (by decide),
   (c10_factory_useOnError ⟨[Entry.mw [MwOp.throwErr 3]], none, none⟩
      ⟨none, none, none, none, none, none⟩).2.2 3 (by decide) (by decide)
      (by decide) (by decide)⟩
